import Mathlib

/-!
Shallow embedding of the rag-pulled ingestion pipeline.

Sources embedded here:
- queue operations (enqueueIngestionJob, claimNextQueuedJob, getDocumentsForJob,
  setJobStatus, markDocumentStructuredStatus, insertDocumentChunks,
  insertChunkEmbedding, setJobFailedWithRetry) from the queue module;
- the processor (processIngestionJob) from src/server/src/lib/ingestion/processor.ts;
- the deterministic document structurer and deterministic embedding generator
  from src/server/src/lib/ingestion/adapters/.

Modelling conventions: timestamps are naturals; UUIDs are modelled by a fresh-id
counter carried in the store state; the database is four in-memory lists of rows;
JavaScript exceptions are `Except` errors carrying the store state at throw time
(database writes are not rolled back by a throw); file paths are lists of path
components and the file system is an oracle from paths to optional contents
(`none` models a readFile failure).
-/

deriving instance DecidableEq for Except

namespace RagPulled

/-! ## JavaScript string helpers -/

/-- Characters treated as whitespace by JavaScript `String.prototype.trim`
(restricted to the ASCII range, which covers the repository fixtures). -/
def jsIsSpace (c : Char) : Bool :=
  c = ' ' || c = '\t' || c = '\n' || c = '\r' || c = '\x0b' || c = '\x0c'

/-- JavaScript `s.trim()` on a character list. -/
def jsTrimList (cs : List Char) : List Char :=
  ((cs.dropWhile jsIsSpace).reverse.dropWhile jsIsSpace).reverse

/-- JavaScript `s.trim()`. -/
def jsTrim (s : String) : String :=
  ⟨jsTrimList s.data⟩

/-- JavaScript `content.split(/\r?\n/)`: a separator is either CRLF or a lone LF;
a lone CR is ordinary content. -/
def splitLinesAux : List Char → List Char → List String
  | [], acc => [⟨acc.reverse⟩]
  | '\r' :: '\n' :: rest, acc => ⟨acc.reverse⟩ :: splitLinesAux rest []
  | '\n' :: rest, acc => ⟨acc.reverse⟩ :: splitLinesAux rest []
  | c :: rest, acc => splitLinesAux rest (c :: acc)

/-- JavaScript `content.split(/\r?\n/)`. -/
def jsSplitLines (s : String) : List String :=
  splitLinesAux s.data []

/-- JavaScript `row.split(',')` on a character list. -/
def splitCommaAux : List Char → List Char → List String
  | [], acc => [⟨acc.reverse⟩]
  | ',' :: rest, acc => ⟨acc.reverse⟩ :: splitCommaAux rest []
  | c :: rest, acc => splitCommaAux rest (c :: acc)

/-- JavaScript `row.split(',')`. -/
def jsSplitComma (s : String) : List String :=
  splitCommaAux s.data []

/-- JavaScript `content.split(/\n(?=#)/g)`: split at each LF that is immediately
followed by a hash; the LF is consumed, the hash starts the next part (the
lookahead does not consume it, and a hash alone can never start a separator,
so carrying it into the accumulator of the next part is equivalent). -/
def splitMdAux : List Char → List Char → List String
  | [], acc => [⟨acc.reverse⟩]
  | '\n' :: '#' :: rest, acc => ⟨acc.reverse⟩ :: splitMdAux rest ['#']
  | c :: rest, acc => splitMdAux rest (c :: acc)

/-- JavaScript `content.split(/\n(?=#)/g)`. -/
def jsSplitMd (s : String) : List String :=
  splitMdAux s.data []

/-- JavaScript `filePath.toLowerCase().endsWith(suffix)`.  The suffixes used by
the structurer contain no path separator, so only the last path component
matters. -/
def hasSuffixLower (path : List String) (suffix : String) : Bool :=
  match path.getLast? with
  | none => false
  | some comp => suffix.data.isSuffixOf (comp.data.map Char.toLower)

/-! ## Structurer data model -/

/-- Chunk metadata attached by the deterministic structurer. -/
inductive ChunkMetadata where
  | csvRow (row : Nat)
  | markdownBlock (block : Nat)
deriving DecidableEq, Repr

/-- One entry of a structurer result (`StructuredChunk` in the source). -/
structure StructuredChunk where
  chunkIndex : Nat
  text : String
  metadata : Option ChunkMetadata
deriving DecidableEq, Repr

/-- Status of a structurer result. -/
inductive StructStatus where
  | structured
  | unsupported
  | failed
deriving DecidableEq, Repr

/-- Result of `DocumentStructurer.structure` (`StructuredDocumentResult`). -/
structure StructuredDocumentResult where
  status : StructStatus
  chunks : List StructuredChunk
  error : Option String
deriving DecidableEq, Repr

/-- CSV branch of `DeterministicDocumentStructurer.structure`: split on LF/CRLF,
trim each row, drop empties, and build one chunk per row whose text is the
comma-separated values each trimmed and joined with a bar. -/
def csvChunks (content : String) : List StructuredChunk :=
  let rows := ((jsSplitLines content).map jsTrim).filter (fun r => r ≠ "")
  rows.enum.map fun p =>
    { chunkIndex := p.1
      text := String.intercalate " | " ((jsSplitComma p.2).map jsTrim)
      metadata := some (ChunkMetadata.csvRow (p.1 + 1)) }

/-- Markdown branch of `DeterministicDocumentStructurer.structure`. -/
def mdChunks (content : String) : List StructuredChunk :=
  let blocks := ((jsSplitMd content).map jsTrim).filter (fun r => r ≠ "")
  blocks.enum.map fun p =>
    { chunkIndex := p.1
      text := p.2
      metadata := some (ChunkMetadata.markdownBlock (p.1 + 1)) }

/-- The file-system oracle: path components to optional file content; `none`
models a thrown readFile error. -/
def FileSystem : Type := List String → Option String

/-- The deterministic structurer (`DeterministicDocumentStructurer.structure`).
The mime type argument is ignored by the source. -/
def detStructure (fs : FileSystem) (filePath : List String) (_mimeType : String) :
    Except String StructuredDocumentResult :=
  if hasSuffixLower filePath ".csv" then
    match fs filePath with
    | none => .error "ENOENT: no such file or directory"
    | some content => .ok { status := .structured, chunks := csvChunks content, error := none }
  else if hasSuffixLower filePath ".md" || hasSuffixLower filePath ".markdown" then
    match fs filePath with
    | none => .error "ENOENT: no such file or directory"
    | some content => .ok { status := .structured, chunks := mdChunks content, error := none }
  else
    .ok { status := .unsupported, chunks := []
          error := some "File format is not yet supported by the local structurer adapter" }

/-! ## Store data model -/

/-- Status column of `ingestion_jobs`. -/
inductive JobStatus where
  | queued
  | processing_structure
  | processing_embeddings
  | completed
  | failed
deriving DecidableEq, Repr

/-- Status column of `uploaded_documents.structured_status`. -/
inductive DocStatus where
  | pending
  | processing
  | structured
  | unsupported
  | failed
deriving DecidableEq, Repr

/-- One `ingestion_jobs` row. -/
structure Job where
  id : Nat
  user_id : String
  upload_session_id : String
  status : JobStatus
  attempt_count : Nat
  max_attempts : Nat
  next_run_at : Nat
  error : Option String
  created_at : Nat
  updated_at : Nat
deriving DecidableEq, Repr

/-- One `uploaded_documents` row. -/
structure Doc where
  id : Nat
  job_id : Nat
  user_id : String
  original_name : String
  stored_name : String
  stored_path : List String
  mime_type : String
  size_bytes : Nat
  structured_status : DocStatus
  error : Option String
  created_at : Nat
  updated_at : Nat
deriving DecidableEq, Repr

/-- One `document_chunks` row. -/
structure Chunk where
  id : Nat
  document_id : Nat
  chunk_index : Nat
  text : String
  metadata : Option ChunkMetadata
  created_at : Nat
deriving DecidableEq, Repr

/-- One `chunk_embeddings` row; `V` is the stored vector payload, which the
pipeline never inspects. -/
structure EmbRow (V : Type) where
  id : Nat
  chunk_id : Nat
  embedding_model : String
  embedding_dim : Nat
  embedding : V
  created_at : Nat
deriving DecidableEq

/-- Result of `EmbeddingGenerator.embed` (`EmbeddingResult`). -/
structure EmbeddingResult (V : Type) where
  model : String
  dimensions : Nat
  vector : V

/-- The relational store plus the fresh-id counter that models `randomUUID`. -/
structure St (V : Type) where
  jobs : List Job
  docs : List Doc
  chunks : List Chunk
  embeds : List (EmbRow V)
  nextId : Nat
deriving DecidableEq

/-- The empty store. -/
def emptySt (V : Type) : St V :=
  { jobs := [], docs := [], chunks := [], embeds := [], nextId := 0 }

/-- Metadata of one staged file handed to the enqueue operation
(`UploadedFileMetadata`). -/
structure FileMeta where
  originalName : String
  storedName : String
  storedPath : List String
  sizeBytes : Nat
  mimeType : String
  uploadedAt : String
deriving DecidableEq, Repr

/-! ## Queue operations -/

/-- Outcome oracle for the two insert statements issued by the enqueue
operation; each insert is an independent database statement that can throw. -/
inductive WriteOutcome where
  | ok
  | failJob
  | failDocs
deriving DecidableEq, Repr

/-- The `DEFAULT_MAX_ATTEMPTS` constant of the queue module. -/
def DEFAULT_MAX_ATTEMPTS : Nat := 3

/-- The enqueue operation (`enqueueIngestionJob`): inserts one queued job row,
then, when the file list is non-empty, one document row per file in a second
insert statement.  There is no surrounding transaction in the source: a failure
of the second statement leaves the job row committed. -/
def enqueueIngestionJob {V : Type} (s : St V) (userId uploadSessionId : String)
    (uploadedFiles : List FileMeta) (now : Nat) (o : WriteOutcome) :
    Except (St V × String) (St V × Nat) :=
  let jobId := s.nextId
  match o with
  | .failJob => .error (s, "insert into ingestion_jobs failed")
  | _ =>
    let jobRow : Job :=
      { id := jobId, user_id := userId, upload_session_id := uploadSessionId
        status := .queued, attempt_count := 0, max_attempts := DEFAULT_MAX_ATTEMPTS
        next_run_at := now, error := none, created_at := now, updated_at := now }
    let s1 : St V := { s with jobs := s.jobs ++ [jobRow], nextId := s.nextId + 1 }
    if uploadedFiles.length > 0 then
      match o with
      | .failDocs => .error (s1, "insert into uploaded_documents failed")
      | _ =>
        let docRows : List Doc := uploadedFiles.enum.map fun p =>
          { id := s1.nextId + p.1, job_id := jobId, user_id := userId
            original_name := p.2.originalName, stored_name := p.2.storedName
            stored_path := p.2.storedPath, mime_type := p.2.mimeType
            size_bytes := p.2.sizeBytes, structured_status := .pending
            error := none, created_at := now, updated_at := now }
        Except.ok ({ s1 with
                     docs := s1.docs ++ docRows,
                     nextId := s1.nextId + uploadedFiles.length }, jobId)
    else
      .ok (s1, jobId)

/-- Row eligibility in the claim query: `status = queued AND next_run_at <= now
AND attempt_count < max_attempts`. -/
def eligibleJob (now : Nat) (j : Job) : Bool :=
  j.status = .queued && j.next_run_at ≤ now && j.attempt_count < j.max_attempts

/-- A row with minimal `created_at` among a non-empty candidate list (the
`ORDER BY created_at ASC LIMIT 1` of the claim query; the first row wins ties). -/
def pickOldest : List Job → Option Job
  | [] => none
  | j :: rest => some (rest.foldl (fun a b => if b.created_at < a.created_at then b else a) j)

/-- The candidate query of `claimNextQueuedJob`. -/
def selectCandidate {V : Type} (s : St V) (now : Nat) : Option Job :=
  pickOldest (s.jobs.filter (eligibleJob now))

/-- The row written by the conditional claim update. -/
def claimRow (j : Job) (tUpd : Nat) : Job :=
  { j with status := .processing_structure, attempt_count := j.attempt_count + 1
           updated_at := tUpd }

/-- The conditional update of `claimNextQueuedJob`: update rows matching
`id = cid AND status = queued` and return the first updated row. -/
def casClaim {V : Type} (s : St V) (cid : Nat) (tUpd : Nat) : St V × Option Job :=
  let updated := s.jobs.map fun j =>
    if j.id = cid ∧ j.status = .queued then claimRow j tUpd else j
  let returning := (s.jobs.filter fun j => j.id = cid ∧ j.status = .queued).map
    (fun j => claimRow j tUpd)
  ({ s with jobs := updated }, returning.head?)

/-- The claim operation (`claimNextQueuedJob`).  The candidate query runs
against state `s1` and the conditional update against state `s2`; a concurrent
writer may change the row between the two statements, so `s2` may differ from
`s1`.  The sequential single-worker case is `s1 = s2`. -/
def claimNextQueuedJob {V : Type} (s1 s2 : St V) (now tUpd : Nat) : St V × Option Job :=
  match selectCandidate s1 now with
  | none => (s2, none)
  | some c => casClaim s2 c.id tUpd

/-- Document query of the processor (`getDocumentsForJob`), ordered by
`created_at` ascending.  All documents of one job are inserted in a single
statement with one shared `created_at`, so the stable order below is the sorted
order. -/
def getDocumentsForJob {V : Type} (s : St V) (jobId : Nat) : List Doc :=
  s.docs.filter (fun d => d.job_id = jobId)

/-- Unconditional job status write (`setJobStatus`).  The `error` parameter
defaults to null in the source and is therefore always written. -/
def setJobStatus {V : Type} (s : St V) (jobId : Nat) (status : JobStatus)
    (error : Option String) (now : Nat) : St V :=
  { s with jobs := s.jobs.map fun j =>
      if j.id = jobId then { j with status := status, error := error, updated_at := now }
      else j }

/-- Document status write (`markDocumentStructuredStatus`). -/
def markDocumentStructuredStatus {V : Type} (s : St V) (documentId : Nat)
    (status : DocStatus) (error : Option String) (now : Nat) : St V :=
  { s with docs := s.docs.map fun d =>
      if d.id = documentId then
        { d with structured_status := status, error := error, updated_at := now }
      else d }

/-- Chunk persistence (`insertDocumentChunks`): empty input returns `[]` without
writing; otherwise every supplied chunk is persisted verbatim (index, text and
metadata as given) and the inserted rows are returned in insertion order. -/
def insertDocumentChunks {V : Type} (s : St V) (documentId : Nat)
    (chunks : List StructuredChunk) (now : Nat) : St V × List Chunk :=
  if chunks.length = 0 then (s, [])
  else
    let rows : List Chunk := chunks.enum.map fun p =>
      { id := s.nextId + p.1, document_id := documentId, chunk_index := p.2.chunkIndex
        text := p.2.text, metadata := p.2.metadata, created_at := now }
    ({ s with chunks := s.chunks ++ rows, nextId := s.nextId + chunks.length }, rows)

/-- Embedding persistence (`insertChunkEmbedding`). -/
def insertChunkEmbedding {V : Type} (s : St V) (chunkId : Nat)
    (embedding : EmbeddingResult V) (now : Nat) : St V :=
  { s with
      embeds := s.embeds ++
        [{ id := s.nextId, chunk_id := chunkId, embedding_model := embedding.model
           embedding_dim := embedding.dimensions, embedding := embedding.vector
           created_at := now }]
      nextId := s.nextId + 1 }

/-- Backoff of `setJobFailedWithRetry`:
`Math.min(60_000, Math.max(5_000, 2 ** attemptCount * 1_000))`. -/
def backoffMs (attemptCount : Nat) : Nat :=
  min 60000 (max 5000 (2 ^ attemptCount * 1000))

/-- The retry operation (`setJobFailedWithRetry`): reads the job row first (the
`LIMIT 1` select returns the first row with the id); a missing row is a no-op;
with no attempts left the row becomes failed, otherwise it is re-queued with the
backoff delay. -/
def setJobFailedWithRetry {V : Type} (s : St V) (jobId : Nat) (errorMessage : String)
    (now : Nat) : St V :=
  match s.jobs.find? (fun j => j.id = jobId) with
  | none => s
  | some job =>
    if job.attempt_count < job.max_attempts then
      { s with jobs := s.jobs.map fun j =>
          if j.id = jobId then
            { j with status := .queued, error := some errorMessage
                     next_run_at := now + backoffMs job.attempt_count, updated_at := now }
          else j }
    else
      { s with jobs := s.jobs.map fun j =>
          if j.id = jobId then
            { j with status := .failed, error := some errorMessage, updated_at := now }
          else j }

/-! ## Path resolution -/

/-- Root directory of the server, as an absolute path.  Stored paths are
recorded relative to it (`tmp/uploads/...`). -/
def serverRootDir : List String := ["srv", "server"]

/-- Collapse relative path components: a dot-dot pops one component, a single
dot or an empty component is skipped; popping above the start means the path
escapes its root. -/
def collapseComponents : List String → List String → Option (List String)
  | stack, [] => some stack.reverse
  | stack, c :: rest =>
    if c = ".." then
      match stack with
      | [] => none
      | _ :: tl => collapseComponents tl rest
    else if c = "." ∨ c = "" then collapseComponents stack rest
    else collapseComponents (c :: stack) rest

/-- The server temp directory under which uploads are staged
(`<serverRoot>/tmp`); stored paths are recorded relative to the server root as
`tmp/uploads/...`. -/
def serverTempDir : List String := serverRootDir ++ ["tmp"]

/-- Modelled from the spec: `resolveStoredPathToAbsolutePath` is imported by
the processor from the upload-storage module but its implementation is not
present under src/.  Per the spec it resolves `storedPath` (relative to the
server root) to an absolute file path rooted under the server temp directory
and rejects (throws on) paths that escape that root: the collapse fails when a
dot-dot climbs above the server root, and a collapsed path is accepted only
when its first component is `tmp`, i.e. when the absolute path
`serverRootDir ++ comps` lies under `serverTempDir`. -/
def resolveStoredPathToAbsolutePath (storedPath : List String) :
    Except String (List String) :=
  match collapseComponents [] storedPath with
  | none => .error "storedPath escapes the upload root"
  | some comps =>
    if comps.take 1 = ["tmp"] then .ok (serverRootDir ++ comps)
    else .error "storedPath escapes the upload root"

/-! ## Processor -/

/-- Shape of a structurer capability handed to the processor: it may throw
(`Except.error`) or return a structured result. -/
def StructurerFn : Type := List String → String → Except String StructuredDocumentResult

/-- Shape of an embedder capability handed to the processor. -/
def EmbedderFn (V : Type) : Type := String → Except String (EmbeddingResult V)

/-- Embedding loop of the processor: embed each inserted chunk in order and
persist the resulting row; a thrown embed error carries the state reached so
far. -/
def embedInsertedChunks {V : Type} (ef : EmbedderFn V) (s : St V) (now : Nat) :
    List Chunk → Except (St V × String) (St V)
  | [] => .ok s
  | c :: rest =>
    match ef c.text with
    | .error m => .error (s, m)
    | .ok er => embedInsertedChunks ef (insertChunkEmbedding s c.id er now) now rest

/-- Per-document loop of the processor (the `for` body of
`processIngestionJob`): mark processing, resolve the stored path, structure,
then either mark unsupported/failed and continue, or persist chunks, move the
job to `processing_embeddings`, embed every inserted chunk and mark the
document structured. -/
def processDocs {V : Type} (sf : StructurerFn) (ef : EmbedderFn V) (s : St V)
    (jobId now : Nat) : List Doc → Except (St V × String) (St V)
  | [] => .ok s
  | d :: rest =>
    let s1 := markDocumentStructuredStatus s d.id .processing none now
    match resolveStoredPathToAbsolutePath d.stored_path with
    | .error m => .error (s1, m)
    | .ok absolutePath =>
      match sf absolutePath d.mime_type with
      | .error m => .error (s1, m)
      | .ok structRes =>
        match structRes.status with
        | .unsupported =>
          processDocs sf ef
            (markDocumentStructuredStatus s1 d.id .unsupported structRes.error now)
            jobId now rest
        | .failed =>
          processDocs sf ef
            (markDocumentStructuredStatus s1 d.id .failed
              (some (structRes.error.getD "Structure step failed")) now)
            jobId now rest
        | .structured =>
          let inserted := insertDocumentChunks s1 d.id structRes.chunks now
          let s3 := setJobStatus inserted.1 jobId .processing_embeddings none now
          match embedInsertedChunks ef s3 now inserted.2 with
          | .error e => .error e
          | .ok s4 =>
            processDocs sf ef
              (markDocumentStructuredStatus s4 d.id .structured none now)
              jobId now rest

/-- Body of the processor try block: obtain the configured providers (a
configuration error is a throw), load the documents, run the per-document loop
and finally mark the job completed with the error cleared. -/
def processBody {V : Type} (structurerCfg : Except String StructurerFn)
    (embedderCfg : Except String (EmbedderFn V)) (s : St V) (jobId now : Nat) :
    Except (St V × String) (St V) :=
  match structurerCfg with
  | .error m => .error (s, m)
  | .ok sf =>
    match embedderCfg with
    | .error m => .error (s, m)
    | .ok ef =>
      match processDocs sf ef s jobId now (getDocumentsForJob s jobId) with
      | .error e => .error e
      | .ok s1 => .ok (setJobStatus s1 jobId .completed none now)

/-- The processor (`processIngestionJob`): the whole body runs in a try block
whose catch routes the thrown message to `setJobFailedWithRetry`; the function
itself always returns a state. -/
def processIngestionJob {V : Type} (structurerCfg : Except String StructurerFn)
    (embedderCfg : Except String (EmbedderFn V)) (s : St V) (jobId now : Nat) : St V :=
  match processBody structurerCfg embedderCfg s jobId now with
  | .ok s1 => s1
  | .error (s1, m) => setJobFailedWithRetry s1 jobId m now

/-! ## Deterministic embedding generator -/

/-- Accumulation loop of `DeterministicEmbeddingGenerator.embed`: starting from
the all-zero 128-vector, add `(code % 31) / 31` to component `i % 128` for the
code unit at index `i`. -/
noncomputable def accumVec (codes : List Nat) : Fin 128 → ℝ :=
  codes.enum.foldl
    (fun v p =>
      Function.update v (p.1 : Fin 128)
        (v (p.1 : Fin 128) + ((p.2 % 31 : Nat) : ℝ) / 31))
    (fun _ => 0)

/-- Euclidean magnitude of a 128-vector (the `Math.sqrt` of the sum of
squares in the source). -/
noncomputable def vecMagnitude (v : Fin 128 → ℝ) : ℝ :=
  Real.sqrt (∑ j, v j ^ 2)

/-- The deterministic embedder (`DeterministicEmbeddingGenerator.embed`); the
`|| 1` of the source replaces a zero magnitude by one.  The input is the list
of UTF-16 code units of the string (code points of the fixtures, which are
ASCII). -/
noncomputable def detEmbed (input : String) : EmbeddingResult (Fin 128 → ℝ) :=
  let codes := input.data.map Char.toNat
  let v := accumVec codes
  let magnitude := if vecMagnitude v = 0 then 1 else vecMagnitude v
  { model := "deterministic-emb-v1", dimensions := 128
    vector := fun j => v j / magnitude }

/-- Vector payload type used by the deterministic pipeline. -/
def RV : Type := Fin 128 → ℝ

/-- The deterministic structurer as a processor capability, reading through
the file-system oracle `fs`. -/
def detSF (fs : FileSystem) : StructurerFn :=
  fun path mime => detStructure fs path mime

/-- The deterministic embedder as a processor capability; it never throws. -/
noncomputable def detEF : EmbedderFn RV :=
  fun input => .ok (detEmbed input)

/-- Structurer configuration of the deterministic pipeline (the
`createDocumentStructurer` call succeeds and yields the deterministic
adapter). -/
def detStructurerCfg (fs : FileSystem) : Except String StructurerFn :=
  .ok (detSF fs)

/-- Embedder configuration of the deterministic pipeline. -/
noncomputable def detEmbedderCfg : Except String (EmbedderFn RV) :=
  .ok detEF

/-! ## Reachable pipeline states -/

/-- State reached by an enqueue call, on both the success and the failure
path (a thrown insert leaves the rows already written). -/
def enqState (s : St RV) (userId uploadSessionId : String)
    (uploadedFiles : List FileMeta) (now : Nat) (o : WriteOutcome) : St RV :=
  match enqueueIngestionJob s userId uploadSessionId uploadedFiles now o with
  | .ok (s1, _) => s1
  | .error (s1, _) => s1

/-- States reachable from the empty store by the pipeline operations enqueue,
claimNext (sequential case) and process with the deterministic providers, over
arbitrary inputs, insert outcomes and file systems. -/
inductive Reach : St RV → Prop where
  | init : Reach (emptySt RV)
  | enq (userId uploadSessionId : String) (uploadedFiles : List FileMeta)
      (now : Nat) (o : WriteOutcome) {s : St RV} :
      Reach s → Reach (enqState s userId uploadSessionId uploadedFiles now o)
  | claim (now tUpd : Nat) {s : St RV} :
      Reach s → Reach (claimNextQueuedJob s s now tUpd).1
  | proc (fs : FileSystem) (jobId now : Nat) {s : St RV} :
      Reach s → Reach (processIngestionJob (detStructurerCfg fs) detEmbedderCfg s jobId now)

/-! ## Generic list lemmas for the queue proofs -/

/-- The head of a filtered list is the first element satisfying the predicate. -/
theorem head_filter_eq_find {α : Type} (p : α → Bool) (l : List α) :
    (l.filter p).head? = l.find? p := by
  induction l with
  | nil => rfl
  | cons a l ih =>
    by_cases h : p a
    · simp [List.filter_cons, List.find?_cons, h]
    · simp only [Bool.not_eq_true] at h
      simp [List.filter_cons, List.find?_cons, h, ih]

/-- Folding the older-row choice keeps an element of the candidate list. -/
theorem foldl_pick_mem (l : List Job) (j : Job) :
    l.foldl (fun a b => if b.created_at < a.created_at then b else a) j ∈ j :: l := by
  induction l generalizing j with
  | nil => simp
  | cons c l ih =>
    simp only [List.foldl_cons]
    by_cases hc : c.created_at < j.created_at
    · rw [if_pos hc]
      exact List.mem_cons_of_mem j (ih c)
    · rw [if_neg hc]
      rcases List.mem_cons.1 (ih j) with h | h
      · rw [h]
        exact List.mem_cons_self _ _
      · exact List.mem_cons_of_mem _ (List.mem_cons_of_mem _ h)

/-- Folding the older-row choice yields a minimal `created_at`. -/
theorem foldl_pick_le (l : List Job) (j : Job) :
    ∀ x ∈ j :: l,
      (l.foldl (fun a b => if b.created_at < a.created_at then b else a) j).created_at ≤
        x.created_at := by
  induction l generalizing j with
  | nil => simp
  | cons c l ih =>
    intro x hx
    simp only [List.foldl_cons]
    by_cases hc : c.created_at < j.created_at
    · rw [if_pos hc]
      rcases List.mem_cons.1 hx with h | hx1
      · rw [h]
        exact le_trans (ih c c (List.mem_cons_self _ _)) (le_of_lt hc)
      · exact ih c x hx1
    · rw [if_neg hc]
      rcases List.mem_cons.1 hx with h | hx1
      · rw [h]
        exact ih j j (List.mem_cons_self _ _)
      · rcases List.mem_cons.1 hx1 with h | hx2
        · rw [h]
          exact le_trans (ih j j (List.mem_cons_self _ _)) (le_of_not_lt hc)
        · exact ih j x (List.mem_cons_of_mem _ hx2)

/-- An empty candidate query means no job row is eligible. -/
theorem selectCandidate_none_iff {V : Type} (s : St V) (now : Nat) :
    selectCandidate s now = none ↔ ∀ j ∈ s.jobs, ¬ eligibleJob now j := by
  unfold selectCandidate pickOldest
  constructor
  · intro h j hj hel
    cases hfil : s.jobs.filter (eligibleJob now) with
    | nil =>
      have := List.filter_eq_nil_iff.1 hfil j hj
      exact this hel
    | cons a l => simp [hfil] at h
  · intro h
    have : s.jobs.filter (eligibleJob now) = [] :=
      List.filter_eq_nil_iff.2 fun j hj => h j hj
    simp [this]

/-- A returned candidate is an eligible row with minimal `created_at`. -/
theorem selectCandidate_some {V : Type} (s : St V) (now : Nat) (c : Job)
    (h : selectCandidate s now = some c) :
    c ∈ s.jobs ∧ eligibleJob now c = true ∧
      ∀ j ∈ s.jobs, eligibleJob now j = true → c.created_at ≤ j.created_at := by
  unfold selectCandidate pickOldest at h
  cases hfil : s.jobs.filter (eligibleJob now) with
  | nil => simp [hfil] at h
  | cons a l =>
    rw [hfil] at h
    have hc : c = l.foldl (fun a b => if b.created_at < a.created_at then b else a) a := by
      simpa using h.symm
    have hmem : c ∈ a :: l := hc ▸ foldl_pick_mem l a
    have hmemf : c ∈ s.jobs.filter (eligibleJob now) := by rw [hfil]; exact hmem
    have hcj := List.mem_filter.1 hmemf
    refine ⟨hcj.1, hcj.2, ?_⟩
    intro j hj hel
    have hjf : j ∈ a :: l := by
      rw [← hfil]
      exact List.mem_filter.2 ⟨hj, hel⟩
    have := foldl_pick_le l a j hjf
    rw [← hc] at this
    exact this

/-- C1 helper: a map that rewrites no row leaves the job list unchanged. -/
theorem map_if_none_eq {α : Type} [DecidableEq α] (l : List α) (p : α → Prop)
    [DecidablePred p] (f : α → α) (h : ∀ x ∈ l, ¬ p x) :
    (l.map fun x => if p x then f x else x) = l := by
  induction l with
  | nil => rfl
  | cons a l ih =>
    simp only [List.map_cons, if_neg (h a (List.mem_cons_self a l))]
    rw [ih fun x hx => h x (List.mem_cons_of_mem a hx)]

/-- C1: claimNext selects the oldest eligible queued job (status queued,
nextRunAt at or before now, attemptCount below maxAttempts, minimal
createdAt), transitions it to processing_structure with attemptCount
incremented and updatedAt stamped, conditional on the row still being queued
in the state seen by the update; it returns the post-update row on success and
none both when no job is eligible and when the conditional update finds the
row no longer queued. -/
theorem claim_C1_claimNext (V : Type) (s1 s2 : St V) (now tUpd : Nat) :
    (∀ j : Job, eligibleJob now j = true ↔
        (j.status = .queued ∧ j.next_run_at ≤ now ∧ j.attempt_count < j.max_attempts))
  ∧ ((∀ j ∈ s1.jobs, ¬ eligibleJob now j) →
        claimNextQueuedJob s1 s2 now tUpd = (s2, none))
  ∧ (∀ c, selectCandidate s1 now = some c →
      (c ∈ s1.jobs ∧ eligibleJob now c = true ∧
        (∀ j ∈ s1.jobs, eligibleJob now j = true → c.created_at ≤ j.created_at))
    ∧ ((∀ j ∈ s2.jobs, j.id = c.id → j.status ≠ .queued) →
        claimNextQueuedJob s1 s2 now tUpd = (s2, none))
    ∧ (∀ jr, s2.jobs.find? (fun j => j.id = c.id ∧ j.status = .queued) = some jr →
        claimNextQueuedJob s1 s2 now tUpd =
          ({ s2 with jobs := s2.jobs.map fun j =>
               if j.id = c.id ∧ j.status = .queued then claimRow j tUpd else j },
            some (claimRow jr tUpd)) ∧
        (claimRow jr tUpd).status = .processing_structure ∧
        (claimRow jr tUpd).attempt_count = jr.attempt_count + 1 ∧
        (claimRow jr tUpd).updated_at = tUpd)) := by
  refine ⟨?_, ?_, ?_⟩
  · intro j
    simp [eligibleJob, and_assoc]
  · intro h
    have hnone : selectCandidate s1 now = none := (selectCandidate_none_iff s1 now).2 h
    simp [claimNextQueuedJob, hnone]
  · intro c hc
    refine ⟨selectCandidate_some s1 now c hc, ?_, ?_⟩
    · intro h
      have hfil : s2.jobs.filter (fun j => j.id = c.id ∧ j.status = .queued) = [] := by
        rw [List.filter_eq_nil_iff]
        intro j hj
        simp only [decide_eq_true_eq, not_and]
        exact fun hid => h j hj hid
      have hmap : (s2.jobs.map fun j =>
          if j.id = c.id ∧ j.status = .queued then claimRow j tUpd else j) = s2.jobs := by
        refine map_if_none_eq s2.jobs _ _ fun j hj => ?_
        rintro ⟨hid, hq⟩
        exact h j hj hid hq
      unfold claimNextQueuedJob
      rw [hc]
      show casClaim s2 c.id tUpd = (s2, none)
      unfold casClaim
      dsimp only
      rw [hmap, hfil]
      rfl
    · intro jr hjr
      refine ⟨?_, rfl, rfl, rfl⟩
      unfold claimNextQueuedJob
      rw [hc]
      show casClaim s2 c.id tUpd = _
      unfold casClaim
      dsimp only
      rw [List.head?_map, head_filter_eq_find, hjr]
      rfl

/-- Concrete queued job used by the C1 witness. -/
def jW : Job :=
  { id := 0, user_id := "u", upload_session_id := "s", status := .queued
    attempt_count := 0, max_attempts := 3, next_run_at := 0, error := none
    created_at := 0, updated_at := 0 }

/-- Concrete one-job store used by the C1 witness. -/
def sW : St Unit := { jobs := [jW], docs := [], chunks := [], embeds := [], nextId := 1 }

/-- Witness for C1: on a store holding one eligible queued job the claim
succeeds and returns the post-update row. -/
theorem claim_C1_witness :
    claimNextQueuedJob sW sW 5 6 =
      ({ sW with jobs := sW.jobs.map fun j =>
           if j.id = jW.id ∧ j.status = .queued then claimRow j 6 else j },
        some (claimRow jW 6)) ∧
    (claimRow jW 6).status = .processing_structure ∧
    (claimRow jW 6).attempt_count = jW.attempt_count + 1 ∧
    (claimRow jW 6).updated_at = 6 :=
  ((claim_C1_claimNext Unit sW sW 5 6).2.2 jW (by decide)).2.2 jW (by decide)

/-- C2: failWithRetry is a no-op when the job row is missing; with
attemptCount at or above maxAttempts the row becomes failed with the error
message; otherwise it is re-queued with the error message and
nextRunAt = now + clamp(2^attemptCount * 1000ms, 5000ms, 60000ms), which is
strictly in the future. -/
theorem claim_C2_failWithRetry (V : Type) (s : St V) (jobId : Nat) (msg : String)
    (now : Nat) :
    ((∀ j ∈ s.jobs, j.id ≠ jobId) → setJobFailedWithRetry s jobId msg now = s)
  ∧ (∀ job, s.jobs.find? (fun j => j.id = jobId) = some job →
      (job.max_attempts ≤ job.attempt_count →
        (setJobFailedWithRetry s jobId msg now).jobs.find? (fun j => j.id = jobId) =
          some { job with status := .failed, error := some msg, updated_at := now })
    ∧ (job.attempt_count < job.max_attempts →
        (setJobFailedWithRetry s jobId msg now).jobs.find? (fun j => j.id = jobId) =
          some { job with
                   status := .queued, error := some msg,
                   next_run_at := now + min 60000 (max 5000 (2 ^ job.attempt_count * 1000)),
                   updated_at := now } ∧
        now < now + min 60000 (max 5000 (2 ^ job.attempt_count * 1000)))) := by
  constructor
  · intro h
    have hfind : s.jobs.find? (fun j => j.id = jobId) = none := by
      refine List.find?_eq_none.2 fun j hj => ?_
      simp [h j hj]
    simp [setJobFailedWithRetry, hfind]
  · intro job hfind
    have hid : job.id = jobId := by
      have := List.find?_some hfind
      simpa using this
    have hfind_map : ∀ (f : Job → Job), (∀ j : Job, (f j).id = j.id) →
        (s.jobs.map f).find? (fun j => j.id = jobId) = some (f job) := by
      intro f hf
      rw [List.find?_map]
      have hcomp : ((fun j : Job => decide (j.id = jobId)) ∘ f) =
          fun j : Job => decide (j.id = jobId) := by
        funext j
        simp [Function.comp, hf j]
      rw [hcomp, hfind]
      rfl
    constructor
    · intro hge
      have hnotlt : ¬ job.attempt_count < job.max_attempts := not_lt.2 hge
      unfold setJobFailedWithRetry
      rw [hfind]
      simp only [if_neg hnotlt]
      have := hfind_map
        (fun j => if j.id = jobId then
          { j with status := .failed, error := some msg, updated_at := now } else j)
        (by intro j; by_cases h : j.id = jobId <;> simp [h])
      rw [this]
      simp [hid]
    · intro hlt
      constructor
      · unfold setJobFailedWithRetry
        rw [hfind]
        simp only [if_pos hlt]
        have := hfind_map
          (fun j => if j.id = jobId then
            { j with
                status := .queued, error := some msg,
                next_run_at := now + backoffMs job.attempt_count, updated_at := now }
            else j)
          (by intro j; by_cases h : j.id = jobId <;> simp [h])
        rw [this]
        simp [hid, backoffMs]
      · have h5 : 5000 ≤ min 60000 (max 5000 (2 ^ job.attempt_count * 1000)) :=
          le_min (by norm_num) (le_max_left _ _)
        omega

/-- Concrete store used by the C2 witness: one job with attempts left and one
with attempts exhausted. -/
def sW2 : St Unit :=
  { jobs := [{ jW with id := 10, attempt_count := 1 },
             { jW with id := 11, attempt_count := 3 }]
    docs := [], chunks := [], embeds := [], nextId := 0 }

/-- Witness for C2: with attempts left the job is re-queued 5000ms in the
future; with attempts exhausted it is failed. -/
theorem claim_C2_witness :
    ((setJobFailedWithRetry sW2 10 "boom" 100).jobs.find? (fun j => j.id = 10) =
      some { jW with
               id := 10, attempt_count := 1, status := .queued,
               error := some "boom", next_run_at := 100 + 5000, updated_at := 100 } ∧
     (100 : Nat) < 100 + 5000) ∧
    (setJobFailedWithRetry sW2 11 "boom" 100).jobs.find? (fun j => j.id = 11) =
      some { jW with
               id := 11, attempt_count := 3, status := .failed,
               error := some "boom", updated_at := 100 } := by
  constructor
  · have h := ((claim_C2_failWithRetry Unit sW2 10 "boom" 100).2
      { jW with id := 10, attempt_count := 1 } (by decide)).2 (by decide)
    simpa using h
  · have h := ((claim_C2_failWithRetry Unit sW2 11 "boom" 100).2
      { jW with id := 11, attempt_count := 3 } (by decide)).1 (by decide)
    simpa using h

/-- C3: the processor never throws to its caller; every exception raised by
configuration lookup, path resolution, document loading, structuring, chunk
persistence or embedding is caught at the top level and routed to
failWithRetry with the exception message, while the unsupported and failed
structure outcomes only mark that document and processing continues with the
remaining documents. -/
theorem claim_C3_process_never_throws :
    (∀ (V : Type) (structurerCfg : Except String StructurerFn)
        (embedderCfg : Except String (EmbedderFn V)) (s : St V) (jobId now : Nat),
      (∃ s1, processBody structurerCfg embedderCfg s jobId now = .ok s1 ∧
          processIngestionJob structurerCfg embedderCfg s jobId now = s1)
      ∨ (∃ s1 m, processBody structurerCfg embedderCfg s jobId now = .error (s1, m) ∧
          processIngestionJob structurerCfg embedderCfg s jobId now =
            setJobFailedWithRetry s1 jobId m now))
  ∧ (∀ (V : Type) (sf : StructurerFn) (ef : EmbedderFn V) (s : St V)
        (jobId now : Nat) (d : Doc) (rest : List Doc)
        (absolutePath : List String) (structRes : StructuredDocumentResult),
      resolveStoredPathToAbsolutePath d.stored_path = .ok absolutePath →
      sf absolutePath d.mime_type = .ok structRes →
      structRes.status = .unsupported →
      processDocs sf ef s jobId now (d :: rest) =
        processDocs sf ef
          (markDocumentStructuredStatus
            (markDocumentStructuredStatus s d.id .processing none now)
            d.id .unsupported structRes.error now)
          jobId now rest)
  ∧ (∀ (V : Type) (sf : StructurerFn) (ef : EmbedderFn V) (s : St V)
        (jobId now : Nat) (d : Doc) (rest : List Doc)
        (absolutePath : List String) (structRes : StructuredDocumentResult),
      resolveStoredPathToAbsolutePath d.stored_path = .ok absolutePath →
      sf absolutePath d.mime_type = .ok structRes →
      structRes.status = .failed →
      processDocs sf ef s jobId now (d :: rest) =
        processDocs sf ef
          (markDocumentStructuredStatus
            (markDocumentStructuredStatus s d.id .processing none now)
            d.id .failed (some (structRes.error.getD "Structure step failed")) now)
          jobId now rest) := by
  refine ⟨?_, ?_, ?_⟩
  · intro V structurerCfg embedderCfg s jobId now
    cases hbody : processBody structurerCfg embedderCfg s jobId now with
    | ok s1 =>
      exact Or.inl ⟨s1, rfl, by unfold processIngestionJob; rw [hbody]⟩
    | error e =>
      obtain ⟨s1, m⟩ := e
      have h2 : processIngestionJob structurerCfg embedderCfg s jobId now =
          setJobFailedWithRetry s1 jobId m now := by
        unfold processIngestionJob
        rw [hbody]
      exact Or.inr ⟨s1, m, rfl, h2⟩
  · intro V sf ef s jobId now d rest absolutePath structRes hres hsf hstatus
    conv_lhs => rw [processDocs]
    simp only [hres, hsf, hstatus]
  · intro V sf ef s jobId now d rest absolutePath structRes hres hsf hstatus
    conv_lhs => rw [processDocs]
    simp only [hres, hsf, hstatus]

/-- Concrete document used by the C3 witness (an unsupported extension). -/
def dW3 : Doc :=
  { id := 1, job_id := 0, user_id := "u", original_name := "f.bin"
    stored_name := "sf.bin", stored_path := ["tmp", "uploads", "sf.bin"]
    mime_type := "application/octet-stream", size_bytes := 3
    structured_status := .pending, error := none, created_at := 0, updated_at := 0 }

/-- Concrete one-document store used by the C3 witness. -/
def sW3 : St Unit :=
  { jobs := [jW], docs := [dW3], chunks := [], embeds := [], nextId := 2 }

/-- Structurer used by the C3 witness: always returns unsupported. -/
def sfW3 : StructurerFn := fun _ _ =>
  .ok { status := .unsupported, chunks := [], error := some "nope" }

/-- Embedder used by the C3 witness. -/
def efW3 : EmbedderFn Unit := fun _ =>
  .ok { model := "m", dimensions := 0, vector := () }

/-- Witness for C3: on a document whose structuring returns unsupported, the
per-document loop marks that document and continues with the remaining
documents. -/
theorem claim_C3_witness :
    processDocs sfW3 efW3 sW3 0 9 [dW3] =
      processDocs sfW3 efW3
        (markDocumentStructuredStatus
          (markDocumentStructuredStatus sW3 dW3.id .processing none 9)
          dW3.id .unsupported (some "nope") 9)
        0 9 [] :=
  claim_C3_process_never_throws.2.1 Unit sfW3 efW3 sW3 0 9 dW3 []
    (serverRootDir ++ ["tmp", "uploads", "sf.bin"])
    { status := .unsupported, chunks := [], error := some "nope" }
    (by decide) rfl rfl

/-- Concrete file metadata used by the C4 and C6 theorems. -/
def fCsv : FileMeta :=
  { originalName := "f.csv", storedName := "sf.csv"
    storedPath := ["tmp", "uploads", "u", "sess", "sf.csv"]
    sizeBytes := 12, mimeType := "text/csv", uploadedAt := "t0" }

/-- C4: the enqueue operation is not atomic.  On the success path it inserts
exactly one queued job row (attemptCount 0, maxAttempts 3, nextRunAt now) and
one pending document row per input, but the job insert and the document insert
are two separate statements with no surrounding transaction: when the document
insert fails, the already-committed job row remains with no document rows, so
partial state survives a write failure. -/
theorem claim_C4_enqueue_partial_commit :
    enqueueIngestionJob (emptySt Unit) "u" "sess" [fCsv] 0 .failDocs =
      .error ({ jobs := [{ id := 0, user_id := "u", upload_session_id := "sess",
                           status := .queued, attempt_count := 0, max_attempts := 3,
                           next_run_at := 0, error := none, created_at := 0,
                           updated_at := 0 }],
                docs := [], chunks := [], embeds := [], nextId := 1 },
              "insert into uploaded_documents failed") ∧
    enqueueIngestionJob (emptySt Unit) "u" "sess" [fCsv] 0 .ok =
      .ok ({ jobs := [{ id := 0, user_id := "u", upload_session_id := "sess",
                        status := .queued, attempt_count := 0, max_attempts := 3,
                        next_run_at := 0, error := none, created_at := 0,
                        updated_at := 0 }],
             docs := [{ id := 1, job_id := 0, user_id := "u", original_name := "f.csv",
                        stored_name := "sf.csv",
                        stored_path := ["tmp", "uploads", "u", "sess", "sf.csv"],
                        mime_type := "text/csv", size_bytes := 12,
                        structured_status := .pending, error := none, created_at := 0,
                        updated_at := 0 }],
             chunks := [], embeds := [], nextId := 2 }, 0) := by
  constructor
  · decide
  · decide

/-- Counterexample for C5: chunk persistence does not reassign indices, does
not trim text and does not drop entries whose text is empty after trimming —
a single supplied chunk with index 5 and whitespace text is persisted verbatim
even though its text trims to empty. -/
theorem claim_C5_counterexample :
    ((insertDocumentChunks (emptySt Unit) 7
        [{ chunkIndex := 5, text := " ", metadata := none }] 0).2.map
      fun c => (c.chunk_index, c.text)) = [(5, " ")] ∧
    (insertDocumentChunks (emptySt Unit) 7
        [{ chunkIndex := 5, text := " ", metadata := none }] 0).2 ≠ [] ∧
    jsTrim " " = "" ∧ (5 : Nat) ≠ 0 := by
  decide

/-- Rows built by a non-trivial chunk insertion (proof-side abbreviation of
the row construction inside `insertDocumentChunks`). -/
def chunkRows {V : Type} (s : St V) (documentId : Nat)
    (chunks : List StructuredChunk) (now : Nat) : List Chunk :=
  chunks.enum.map fun p =>
    { id := s.nextId + p.1, document_id := documentId, chunk_index := p.2.chunkIndex
      text := p.2.text, metadata := p.2.metadata, created_at := now }

/-- Closed form of `insertDocumentChunks` covering both branches. -/
theorem insertDocumentChunks_eq {V : Type} (s : St V) (documentId : Nat)
    (chunks : List StructuredChunk) (now : Nat) :
    insertDocumentChunks s documentId chunks now =
      ({ s with chunks := s.chunks ++ chunkRows s documentId chunks now,
                nextId := s.nextId + chunks.length },
       chunkRows s documentId chunks now) := by
  cases chunks with
  | nil => simp [insertDocumentChunks, chunkRows]
  | cons c cs => rfl

/-- C5 amended: insertChunks persists the supplied chunks verbatim — the
stored chunkIndex, text and metadata are exactly the ones given, in input
order — touches no other table, returns the persisted rows in insertion order,
and empty input returns the empty list without writing anything. -/
theorem claim_C5_insertChunks_verbatim (V : Type) (s : St V) (documentId : Nat)
    (chunks : List StructuredChunk) (now : Nat) :
    (chunks = [] → insertDocumentChunks s documentId chunks now = (s, [])) ∧
    (insertDocumentChunks s documentId chunks now).2.length = chunks.length ∧
    (insertDocumentChunks s documentId chunks now).1.chunks =
      s.chunks ++ (insertDocumentChunks s documentId chunks now).2 ∧
    (insertDocumentChunks s documentId chunks now).1.docs = s.docs ∧
    (insertDocumentChunks s documentId chunks now).1.embeds = s.embeds ∧
    (insertDocumentChunks s documentId chunks now).1.jobs = s.jobs ∧
    (∀ i ch, chunks[i]? = some ch →
      (insertDocumentChunks s documentId chunks now).2[i]? =
        some ({ id := s.nextId + i, document_id := documentId,
                chunk_index := ch.chunkIndex, text := ch.text, metadata := ch.metadata,
                created_at := now } : Chunk)) := by
  refine ⟨?_, ?_, ?_, ?_, ?_, ?_, ?_⟩
  · intro h
    subst h
    simp [insertDocumentChunks]
  · rw [insertDocumentChunks_eq]
    simp [chunkRows]
  · rw [insertDocumentChunks_eq]
  · rw [insertDocumentChunks_eq]
  · rw [insertDocumentChunks_eq]
  · rw [insertDocumentChunks_eq]
  · intro i ch hch
    rw [insertDocumentChunks_eq]
    show (chunkRows s documentId chunks now)[i]? = _
    unfold chunkRows
    rw [List.getElem?_map, List.getElem?_enum, hch]
    rfl

/-- Witness for C5: a two-chunk insertion persists both rows verbatim. -/
theorem claim_C5_witness :
    insertDocumentChunks (emptySt Unit) 9
        [{ chunkIndex := 4, text := "a", metadata := none }] 3 = (emptySt Unit, []) ∨
    ((insertDocumentChunks (emptySt Unit) 9
        [{ chunkIndex := 4, text := "a", metadata := none }] 3).2[0]? =
      some { id := 0, document_id := 9, chunk_index := 4, text := "a",
             metadata := none, created_at := 3 }) :=
  Or.inr
    ((claim_C5_insertChunks_verbatim Unit (emptySt Unit) 9
        [{ chunkIndex := 4, text := "a", metadata := none }] 3).2.2.2.2.2.2 0
      { chunkIndex := 4, text := "a", metadata := none } (by decide))

/-! ## C8: deterministic CSV structuring -/

/-- The claim wording for the chunk text: the row with every comma replaced by
a bar surrounded by spaces (JavaScript `row.split(',').join(' | ')` with no
per-field trimming). -/
def rowWithCommasReplaced (row : String) : String :=
  String.intercalate " | " (jsSplitComma row)

/-- Concrete csv file system used by the C8 counterexample. -/
def fs8 : FileSystem := fun p =>
  if p = serverRootDir ++ ["tmp", "spaced.csv"] then some "1, 2" else none

/-- Counterexample for C8: on the row `1, 2` the structurer trims each
comma-separated field, producing `1 | 2`, whereas the claimed text — the row
with commas replaced by a spaced bar — is `1 |  2`. -/
theorem claim_C8_counterexample :
    detStructure fs8 (serverRootDir ++ ["tmp", "spaced.csv"]) "text/csv" =
      .ok { status := .structured
            chunks := [{ chunkIndex := 0, text := "1 | 2"
                         metadata := some (ChunkMetadata.csvRow 1) }]
            error := none } ∧
    rowWithCommasReplaced "1, 2" = "1 |  2" ∧
    ("1 | 2" : String) ≠ "1 |  2" := by
  decide

/-- C8 amended: the deterministic structurer on a `.csv` file splits the
content on LF or CRLF, trims each line, drops lines empty after trimming, and
returns status structured with one chunk per remaining row whose text is the
row split on commas with each field trimmed and joined by a spaced bar, and
whose metadata is csv-row with 1-based row number; in particular the content
`a,b\n1,2\n3,4` yields exactly three chunks with indices 0, 1, 2 and texts
`a | b`, `1 | 2`, `3 | 4`. -/
theorem claim_C8_csv_structurer :
    (∀ (fs : FileSystem) (path : List String) (mime content : String),
      hasSuffixLower path ".csv" = true → fs path = some content →
      ∃ res, detStructure fs path mime = .ok res ∧ res.status = .structured ∧
        res.error = none ∧
        res.chunks.length =
          (((jsSplitLines content).map jsTrim).filter (fun r => r ≠ "")).length ∧
        (∀ i row,
          (((jsSplitLines content).map jsTrim).filter (fun r => r ≠ ""))[i]? = some row →
          res.chunks[i]? =
            some ({ chunkIndex := i
                    text := String.intercalate " | " ((jsSplitComma row).map jsTrim)
                    metadata := some (ChunkMetadata.csvRow (i + 1)) } : StructuredChunk)))
  ∧ (csvChunks "a,b\n1,2\n3,4").map (fun c => (c.chunkIndex, c.text, c.metadata)) =
      [(0, "a | b", some (ChunkMetadata.csvRow 1)),
       (1, "1 | 2", some (ChunkMetadata.csvRow 2)),
       (2, "3 | 4", some (ChunkMetadata.csvRow 3))] := by
  constructor
  · intro fs path mime content hsuffix hfs
    refine ⟨{ status := .structured, chunks := csvChunks content, error := none },
      ?_, rfl, rfl, ?_, ?_⟩
    · unfold detStructure
      rw [if_pos hsuffix, hfs]
    · unfold csvChunks
      simp
    · intro i row hrow
      unfold csvChunks
      dsimp only
      rw [List.getElem?_map, List.getElem?_enum, hrow]
      rfl
  · decide

/-- Witness for C8: the amended per-row description instantiated on the
three-row fixture. -/
theorem claim_C8_witness :
    ∃ res,
      detStructure (fun p => if p = ["a.csv"] then some "a,b\n1,2\n3,4" else none)
          ["a.csv"] "text/csv" = .ok res ∧
      res.status = .structured ∧ res.error = none ∧
      res.chunks.length =
        (((jsSplitLines "a,b\n1,2\n3,4").map jsTrim).filter (fun r => r ≠ "")).length ∧
      (∀ i row,
        (((jsSplitLines "a,b\n1,2\n3,4").map jsTrim).filter (fun r => r ≠ ""))[i]? =
          some row →
        res.chunks[i]? =
          some ({ chunkIndex := i
                  text := String.intercalate " | " ((jsSplitComma row).map jsTrim)
                  metadata := some (ChunkMetadata.csvRow (i + 1)) } : StructuredChunk)) :=
  claim_C8_csv_structurer.1 (fun p => if p = ["a.csv"] then some "a,b\n1,2\n3,4" else none)
    ["a.csv"] "text/csv" "a,b\n1,2\n3,4" (by decide) (by decide)

/-! ## C9: deterministic embedder -/

/-- Normalization as worded by the claim: divide every component by the
magnitude floored at one, `max 1` of the magnitude. -/
noncomputable def flooredNormalize (v : Fin 128 → ℝ) : Fin 128 → ℝ :=
  fun j => v j / max 1 (vecMagnitude v)

/-- The magnitude is a square root, hence nonnegative. -/
theorem vecMagnitude_nonneg (v : Fin 128 → ℝ) : 0 ≤ vecMagnitude v :=
  Real.sqrt_nonneg _

/-- The magnitude vanishes exactly on the zero vector. -/
theorem vecMagnitude_eq_zero_iff (v : Fin 128 → ℝ) :
    vecMagnitude v = 0 ↔ v = 0 := by
  unfold vecMagnitude
  rw [Real.sqrt_eq_zero']
  constructor
  · intro h
    have hsum : ∑ j, v j ^ 2 = 0 :=
      le_antisymm h (Finset.sum_nonneg fun j _ => sq_nonneg (v j))
    funext j
    have hj := (Finset.sum_eq_zero_iff_of_nonneg
      (fun j _ => sq_nonneg (v j))).1 hsum j (Finset.mem_univ j)
    have := (pow_eq_zero_iff (by norm_num : (2 : ℕ) ≠ 0)).1 hj
    simpa using this
  · intro h
    rw [h]
    simp

/-- Scaling a vector by a positive constant scales its magnitude. -/
theorem vecMagnitude_div (v : Fin 128 → ℝ) (m : ℝ) (hm : 0 < m) :
    vecMagnitude (fun j => v j / m) = vecMagnitude v / m := by
  unfold vecMagnitude
  have hsum : ∑ j, (v j / m) ^ 2 = (∑ j, v j ^ 2) / m ^ 2 := by
    simp only [div_pow]
    rw [← Finset.sum_div]
  rw [hsum, Real.sqrt_div (Finset.sum_nonneg fun j _ => sq_nonneg (v j)),
    Real.sqrt_sq hm.le]

/-- Counterexample for C9: on the input `a` (code 97, contribution
`(97 % 31) / 31 = 4/31` to component 0) the code divides by the magnitude
itself and returns a component equal to one, whereas the claimed rule — divide
by the magnitude floored at one — would leave the component at `4/31`;
moreover the claim also asserts a unit result vector on nonzero input, so the
claim contradicts the division rule it states. -/
theorem claim_C9_counterexample :
    (detEmbed "a").vector 0 = 1 ∧
    flooredNormalize (accumVec ("a".data.map Char.toNat)) 0 = 4 / 31 ∧
    ((4 : ℝ) / 31) ≠ 1 := by
  have hcodes : "a".data.map Char.toNat = [97] := by decide
  have henum : ([97] : List Nat).enum = [(0, 97)] := rfl
  have happ : ∀ j : Fin 128, accumVec [97] j = if j = 0 then 4 / 31 else 0 := by
    intro j
    unfold accumVec
    rw [henum]
    simp only [List.foldl_cons, List.foldl_nil]
    rw [Function.update_apply]
    norm_num
  have hsum : ∑ j, accumVec [97] j ^ 2 = (4 / 31) ^ 2 := by
    rw [Finset.sum_eq_single (0 : Fin 128)]
    · rw [happ 0]
      simp
    · intro b _ hb
      rw [happ b, if_neg hb]
      simp
    · intro h
      exact absurd (Finset.mem_univ _) h
  have hmag : vecMagnitude (accumVec [97]) = 4 / 31 := by
    unfold vecMagnitude
    rw [hsum, Real.sqrt_sq (by norm_num)]
  refine ⟨?_, ?_, by norm_num⟩
  · show (detEmbed "a").vector 0 = 1
    unfold detEmbed
    dsimp only
    rw [hcodes, hmag]
    rw [if_neg (by norm_num)]
    rw [happ 0, if_pos rfl]
    norm_num
  · unfold flooredNormalize
    rw [hcodes, hmag, happ 0, if_pos rfl]
    rw [max_eq_left (by norm_num)]
    norm_num

/-- C9 amended: the deterministic embedder reports 128 dimensions and returns
the accumulated vector divided componentwise by its magnitude, with divisor one
exactly when the magnitude is zero (the floor applies only at zero); hence the
result has unit magnitude whenever the accumulated vector is nonzero, and the
empty input yields the zero vector. -/
theorem claim_C9_detEmbed (input : String) :
    (detEmbed input).dimensions = 128 ∧
    (detEmbed input).model = "deterministic-emb-v1" ∧
    (detEmbed input).vector = (fun j =>
      accumVec (input.data.map Char.toNat) j /
        (if vecMagnitude (accumVec (input.data.map Char.toNat)) = 0 then 1
         else vecMagnitude (accumVec (input.data.map Char.toNat)))) ∧
    (accumVec (input.data.map Char.toNat) ≠ 0 →
      vecMagnitude ((detEmbed input).vector) = 1) ∧
    (input = "" → (detEmbed input).vector = fun _ => 0) := by
  refine ⟨rfl, rfl, rfl, ?_, ?_⟩
  · intro hnz
    have hmagnz : vecMagnitude (accumVec (input.data.map Char.toNat)) ≠ 0 :=
      fun h => hnz ((vecMagnitude_eq_zero_iff _).1 h)
    have hmagpos : 0 < vecMagnitude (accumVec (input.data.map Char.toNat)) :=
      lt_of_le_of_ne (vecMagnitude_nonneg _) (Ne.symm hmagnz)
    show vecMagnitude (detEmbed input).vector = 1
    have hvec : (detEmbed input).vector = fun j =>
        accumVec (input.data.map Char.toNat) j /
          vecMagnitude (accumVec (input.data.map Char.toNat)) := by
      funext j
      show accumVec (input.data.map Char.toNat) j /
          (if vecMagnitude (accumVec (input.data.map Char.toNat)) = 0 then 1
           else vecMagnitude (accumVec (input.data.map Char.toNat))) = _
      rw [if_neg hmagnz]
    rw [hvec, vecMagnitude_div _ _ hmagpos, div_self hmagnz]
  · intro h
    subst h
    funext j
    show accumVec ("".data.map Char.toNat) j /
        (if vecMagnitude (accumVec ("".data.map Char.toNat)) = 0 then 1
         else vecMagnitude (accumVec ("".data.map Char.toNat))) = 0
    have hempty : ("".data.map Char.toNat) = [] := rfl
    have hzero : accumVec [] = fun _ : Fin 128 => (0 : ℝ) := rfl
    rw [hempty, hzero]
    simp

/-- Witness for C9: the input `a` has a nonzero accumulated vector, so the
returned vector has unit magnitude. -/
theorem claim_C9_witness :
    accumVec ("a".data.map Char.toNat) ≠ 0 ∧
    vecMagnitude ((detEmbed "a").vector) = 1 := by
  have hcodes : "a".data.map Char.toNat = [97] := by decide
  have henum : ([97] : List Nat).enum = [(0, 97)] := rfl
  have hnz : accumVec ("a".data.map Char.toNat) ≠ 0 := by
    rw [hcodes]
    intro h
    have h0 : accumVec [97] 0 = 0 := by rw [h]; rfl
    have h1 : accumVec [97] 0 = 4 / 31 := by
      unfold accumVec
      rw [henum]
      simp only [List.foldl_cons, List.foldl_nil]
      rw [Function.update_apply]
      norm_num
    rw [h1] at h0
    norm_num at h0
  exact ⟨hnz, (claim_C9_detEmbed "a").2.2.2.1 hnz⟩

/-! ## C10: path resolution happens before any file read -/

/-- Throwing a resolve error aborts the per-document loop at once. -/
theorem processDocs_resolve_error {V : Type} (sf : StructurerFn) (ef : EmbedderFn V)
    (s : St V) (jobId now : Nat) (d : Doc) (rest : List Doc) (m : String)
    (hres : resolveStoredPathToAbsolutePath d.stored_path = .error m) :
    processDocs sf ef s jobId now (d :: rest) =
      .error (markDocumentStructuredStatus s d.id .processing none now, m) := by
  conv_lhs => rw [processDocs]
  simp only [hres]

/-- C10: a successfully resolved stored path is always rooted under the server
temp directory; a path whose collapse climbs above the server root is rejected
with an error, and so is a path whose collapsed resolution does not lie under
the temp directory; and when the first document of a job fails resolution the
processor's result does not depend on the file system at all — the file is
never read, and the job is routed to failWithRetry. -/
theorem claim_C10_resolve_before_read :
    (∀ (storedPath resolved : List String),
      resolveStoredPathToAbsolutePath storedPath = .ok resolved →
      ∃ rest, resolved = serverTempDir ++ rest)
  ∧ (∀ storedPath : List String, collapseComponents [] storedPath = none →
      ∃ m, resolveStoredPathToAbsolutePath storedPath = .error m)
  ∧ (∀ (storedPath comps : List String),
      collapseComponents [] storedPath = some comps →
      (¬ ∃ rest, serverRootDir ++ comps = serverTempDir ++ rest) →
      ∃ m, resolveStoredPathToAbsolutePath storedPath = .error m)
  ∧ (∀ (s : St RV) (jobId now : Nat) (d : Doc) (rest : List Doc) (m : String),
      getDocumentsForJob s jobId = d :: rest →
      resolveStoredPathToAbsolutePath d.stored_path = .error m →
      (∀ fs fs' : FileSystem,
        processIngestionJob (detStructurerCfg fs) detEmbedderCfg s jobId now =
          processIngestionJob (detStructurerCfg fs') detEmbedderCfg s jobId now) ∧
      (∀ fs : FileSystem,
        processIngestionJob (detStructurerCfg fs) detEmbedderCfg s jobId now =
          setJobFailedWithRetry
            (markDocumentStructuredStatus s d.id .processing none now) jobId m now)) := by
  refine ⟨?_, ?_, ?_, ?_⟩
  · intro storedPath resolved h
    unfold resolveStoredPathToAbsolutePath at h
    cases hcol : collapseComponents [] storedPath with
    | none => rw [hcol] at h; exact absurd h (by simp)
    | some comps =>
      rw [hcol] at h
      dsimp only at h
      by_cases htake : comps.take 1 = ["tmp"]
      · rw [if_pos htake] at h
        have hr : serverRootDir ++ comps = resolved := by simpa using h
        cases comps with
        | nil => simp at htake
        | cons hd tl =>
          have hhd : hd = "tmp" := by simpa using htake
          refine ⟨tl, ?_⟩
          rw [← hr, hhd]
          rw [show serverTempDir = serverRootDir ++ ["tmp"] from rfl, List.append_assoc]
          rfl
      · rw [if_neg htake] at h
        exact absurd h (by simp)
  · intro storedPath h
    refine ⟨"storedPath escapes the upload root", ?_⟩
    unfold resolveStoredPathToAbsolutePath
    rw [h]
  · intro storedPath comps hcol hnot
    refine ⟨"storedPath escapes the upload root", ?_⟩
    unfold resolveStoredPathToAbsolutePath
    rw [hcol]
    dsimp only
    have htake : ¬ comps.take 1 = ["tmp"] := by
      intro ht
      cases comps with
      | nil => simp at ht
      | cons hd tl =>
        have hhd : hd = "tmp" := by simpa using ht
        refine hnot ⟨tl, ?_⟩
        rw [hhd]
        rw [show serverTempDir = serverRootDir ++ ["tmp"] from rfl, List.append_assoc]
        rfl
    rw [if_neg htake]
  · intro s jobId now d rest m hdocs hres
    have hone : ∀ fs : FileSystem,
        processIngestionJob (detStructurerCfg fs) detEmbedderCfg s jobId now =
          setJobFailedWithRetry
            (markDocumentStructuredStatus s d.id .processing none now) jobId m now := by
      intro fs
      unfold processIngestionJob processBody detStructurerCfg detEmbedderCfg
      dsimp only
      rw [hdocs, processDocs_resolve_error _ _ _ _ _ _ _ _ hres]
    exact ⟨fun fs fs2 => (hone fs).trans (hone fs2).symm, hone⟩

/-- Document with an escaping stored path, used by the C10 witness. -/
def dEsc : Doc :=
  { id := 1, job_id := 0, user_id := "u", original_name := "evil.csv"
    stored_name := "evil.csv", stored_path := ["..", "..", "secret.csv"]
    mime_type := "text/csv", size_bytes := 3, structured_status := .pending
    error := none, created_at := 0, updated_at := 0 }

/-- Store holding the escaping document, used by the C10 witness. -/
def sEsc : St RV :=
  { jobs := [jW], docs := [dEsc], chunks := [], embeds := [], nextId := 2 }

/-- Witness for C10: a regular stored path resolves under the temp directory;
a traversal that collapses to a path outside the temp directory is rejected;
and for a job whose document carries a traversal stored path, the processor's
outcome is the same under a file system that knows every file and one that
knows none — the file is never read — and equals the failWithRetry route. -/
theorem claim_C10_witness :
    (∃ rest, serverRootDir ++ ["tmp", "uploads", "u", "sf.csv"] =
      serverTempDir ++ rest) ∧
    (∃ m, resolveStoredPathToAbsolutePath
      ["tmp", "uploads", "..", "..", "secret.txt"] = .error m) ∧
    processIngestionJob (detStructurerCfg (fun _ => some "a,b"))
        detEmbedderCfg sEsc 0 3 =
      processIngestionJob (detStructurerCfg (fun _ => none))
        detEmbedderCfg sEsc 0 3 ∧
    processIngestionJob (detStructurerCfg (fun _ => some "a,b"))
        detEmbedderCfg sEsc 0 3 =
      setJobFailedWithRetry
        (markDocumentStructuredStatus sEsc dEsc.id .processing none 3) 0
        "storedPath escapes the upload root" 3 := by
  have h := claim_C10_resolve_before_read
  have hd := h.2.2.2 sEsc 0 3 dEsc [] "storedPath escapes the upload root"
    (by decide) (by decide)
  refine ⟨?_, ?_, hd.1 (fun _ => some "a,b") (fun _ => none), hd.2 (fun _ => some "a,b")⟩
  · exact h.1 ["tmp", "uploads", "u", "sf.csv"]
      (serverRootDir ++ ["tmp", "uploads", "u", "sf.csv"]) (by decide)
  · refine h.2.2.1 ["tmp", "uploads", "..", "..", "secret.txt"] ["secret.txt"]
      (by decide) ?_
    rintro ⟨rest, hr⟩
    simp [serverRootDir, serverTempDir] at hr

/-! ## C6/C7: pipeline invariants -/

/-- The store state carried by either branch of a processor step (a throw
carries the state reached so far, a success its result). -/
def stateOfExcept {V : Type} : Except (St V × String) (St V) → St V
  | .ok s => s
  | .error (s, _) => s

/-- Chunk rows belonging to a document. -/
def chunksOfDoc {V : Type} (s : St V) (did : Nat) : List Chunk :=
  s.chunks.filter (fun c => c.document_id = did)

/-- The chunk indices stored for a document. -/
def chunkIndexList {V : Type} (s : St V) (did : Nat) : List Nat :=
  (chunksOfDoc s did).map (fun c => c.chunk_index)

/-- Models of the embedding rows stored for a chunk. -/
def embedModelsOfChunk {V : Type} (s : St V) (cid : Nat) : List String :=
  (s.embeds.filter (fun e => e.chunk_id = cid)).map (fun e => e.embedding_model)

/-- Pipeline invariant maintained by the deterministic pipeline: every chunk
row has exactly one embedding row, carrying the deterministic model id; every
document's chunk indices form an initial segment of the naturals; all ids are
below the fresh-id counter and chunk ids are unique. -/
structure Inv {V : Type} (s : St V) : Prop where
  oneEmbed : ∀ c ∈ s.chunks, embedModelsOfChunk s c.id = ["deterministic-emb-v1"]
  denseIdx : ∀ d ∈ s.docs, ∃ k, ∀ i, i ∈ chunkIndexList s d.id ↔ i < k
  chunkIdLt : ∀ c ∈ s.chunks, c.id < s.nextId
  chunkDocLt : ∀ c ∈ s.chunks, c.document_id < s.nextId
  docIdLt : ∀ d ∈ s.docs, d.id < s.nextId
  embedChunkLt : ∀ e ∈ s.embeds, e.chunk_id < s.nextId
  chunkIdsNodup : (s.chunks.map (fun c => c.id)).Nodup

/-- The empty store satisfies the invariant. -/
theorem inv_emptySt : Inv (emptySt RV) := by
  constructor <;> simp [emptySt, embedModelsOfChunk, chunkIndexList, chunksOfDoc]

/-- Invariant transport along a state change that keeps chunks and embeds,
only grows the fresh-id counter, and keeps the document id multiset (statuses
may change). -/
theorem inv_congr {V : Type} {s s1 : St V}
    (hch : s1.chunks = s.chunks) (hemb : s1.embeds = s.embeds)
    (hnid : s.nextId ≤ s1.nextId)
    (hdocs : ∀ d1 ∈ s1.docs, ∃ d ∈ s.docs, d1.id = d.id)
    (h : Inv s) : Inv s1 := by
  have hmodels : ∀ cid, embedModelsOfChunk s1 cid = embedModelsOfChunk s cid := by
    intro cid
    unfold embedModelsOfChunk
    rw [hemb]
  have hidx : ∀ did, chunkIndexList s1 did = chunkIndexList s did := by
    intro did
    unfold chunkIndexList chunksOfDoc
    rw [hch]
  constructor
  · intro c hc
    rw [hch] at hc
    rw [hmodels]
    exact h.oneEmbed c hc
  · intro d1 hd1
    obtain ⟨d, hd, hid⟩ := hdocs d1 hd1
    rw [hidx, hid]
    exact h.denseIdx d hd
  · intro c hc
    rw [hch] at hc
    exact lt_of_lt_of_le (h.chunkIdLt c hc) hnid
  · intro c hc
    rw [hch] at hc
    exact lt_of_lt_of_le (h.chunkDocLt c hc) hnid
  · intro d1 hd1
    obtain ⟨d, hd, hid⟩ := hdocs d1 hd1
    rw [hid]
    exact lt_of_lt_of_le (h.docIdLt d hd) hnid
  · intro e he
    rw [hemb] at he
    exact lt_of_lt_of_le (h.embedChunkLt e he) hnid
  · rw [hch]
    exact h.chunkIdsNodup

/-- A document list produced by a status-marking map keeps every id. -/
theorem mark_docs_ids {V : Type} (s : St V) (documentId : Nat) (status : DocStatus)
    (error : Option String) (now : Nat) :
    ∀ d1 ∈ (markDocumentStructuredStatus s documentId status error now).docs,
      ∃ d ∈ s.docs, d1.id = d.id := by
  intro d1 hd1
  unfold markDocumentStructuredStatus at hd1
  obtain ⟨d, hd, hfd⟩ := List.mem_map.1 hd1
  refine ⟨d, hd, ?_⟩
  rw [← hfd]
  by_cases hid : d.id = documentId <;> simp [hid]

/-- Marking a document status preserves the invariant. -/
theorem inv_mark {V : Type} {s : St V} (documentId : Nat) (status : DocStatus)
    (error : Option String) (now : Nat) (h : Inv s) :
    Inv (markDocumentStructuredStatus s documentId status error now) :=
  @inv_congr V s (markDocumentStructuredStatus s documentId status error now)
    rfl rfl le_rfl (mark_docs_ids s documentId status error now) h

/-- Setting a job status preserves the invariant. -/
theorem inv_setJobStatus {V : Type} {s : St V} (jobId : Nat) (status : JobStatus)
    (error : Option String) (now : Nat) (h : Inv s) :
    Inv (setJobStatus s jobId status error now) :=
  @inv_congr V s (setJobStatus s jobId status error now)
    rfl rfl le_rfl (fun d1 hd1 => ⟨d1, hd1, rfl⟩) h

/-- The retry operation touches only job rows, hence preserves the invariant. -/
theorem inv_failWithRetry {V : Type} {s : St V} (jobId : Nat) (m : String)
    (now : Nat) (h : Inv s) : Inv (setJobFailedWithRetry s jobId m now) := by
  have hparts : (setJobFailedWithRetry s jobId m now).chunks = s.chunks ∧
      (setJobFailedWithRetry s jobId m now).embeds = s.embeds ∧
      (setJobFailedWithRetry s jobId m now).docs = s.docs ∧
      (setJobFailedWithRetry s jobId m now).nextId = s.nextId := by
    unfold setJobFailedWithRetry
    cases s.jobs.find? (fun j => j.id = jobId) with
    | none => exact ⟨rfl, rfl, rfl, rfl⟩
    | some job =>
      by_cases hlt : job.attempt_count < job.max_attempts <;>
        simp [hlt]
  refine @inv_congr V s (setJobFailedWithRetry s jobId m now)
    hparts.1 hparts.2.1 (le_of_eq hparts.2.2.2.symm) ?_ h
  rw [hparts.2.2.1]
  exact fun d1 hd1 => ⟨d1, hd1, rfl⟩

/-- The claim operation touches only job rows, hence preserves the invariant
(sequential form used by the reachability relation). -/
theorem inv_claimNext {s : St RV} (now tUpd : Nat) (h : Inv s) :
    Inv (claimNextQueuedJob s s now tUpd).1 := by
  have hparts : ((claimNextQueuedJob s s now tUpd).1).chunks = s.chunks ∧
      ((claimNextQueuedJob s s now tUpd).1).embeds = s.embeds ∧
      ((claimNextQueuedJob s s now tUpd).1).docs = s.docs ∧
      ((claimNextQueuedJob s s now tUpd).1).nextId = s.nextId := by
    unfold claimNextQueuedJob
    cases selectCandidate s now with
    | none => exact ⟨rfl, rfl, rfl, rfl⟩
    | some c => exact ⟨rfl, rfl, rfl, rfl⟩
  refine @inv_congr RV s (claimNextQueuedJob s s now tUpd).1
    hparts.1 hparts.2.1 (le_of_eq hparts.2.2.2.symm) ?_ h
  rw [hparts.2.2.1]
  exact fun d1 hd1 => ⟨d1, hd1, rfl⟩

/-- An enum entry's index is below the list length. -/
theorem enum_fst_lt {α : Type} (l : List α) (p : Nat × α) (hp : p ∈ l.enum) :
    p.1 < l.length := by
  have h1 : p.1 ∈ l.enum.map Prod.fst := List.mem_map_of_mem Prod.fst hp
  rw [List.enum_map_fst] at h1
  exact List.mem_range.1 h1

/-- A document id at or above the fresh-id counter owns no chunk rows. -/
theorem chunksOfDoc_fresh {V : Type} (s : St V) (did : Nat)
    (h : ∀ c ∈ s.chunks, c.document_id < s.nextId) (hdid : s.nextId ≤ did) :
    chunksOfDoc s did = [] := by
  unfold chunksOfDoc
  rw [List.filter_eq_nil_iff]
  intro c hc
  simp only [decide_eq_true_eq]
  intro heq
  exact absurd (heq ▸ h c hc) (not_lt.2 hdid)

/-- Appending fresh document rows (and arbitrary job rows) while growing the
fresh-id counter preserves the invariant. -/
theorem inv_append_docs {V : Type} {s : St V} (newDocs : List Doc)
    (jobs1 : List Job) (n1 : Nat)
    (hfresh : ∀ d ∈ newDocs, s.nextId ≤ d.id ∧ d.id < n1)
    (hn : s.nextId ≤ n1) (h : Inv s) :
    Inv { jobs := jobs1, docs := s.docs ++ newDocs, chunks := s.chunks,
          embeds := s.embeds, nextId := n1 } := by
  constructor
  · intro c hc
    exact h.oneEmbed c hc
  · intro d1 hd1
    rcases List.mem_append.1 hd1 with hmem | hmem
    · exact h.denseIdx d1 hmem
    · refine ⟨0, fun i => ?_⟩
      have hnil : chunkIndexList s d1.id = [] := by
        unfold chunkIndexList
        rw [chunksOfDoc_fresh s d1.id h.chunkDocLt (hfresh d1 hmem).1]
        rfl
      show i ∈ chunkIndexList s d1.id ↔ i < 0
      rw [hnil]
      simp
  · intro c hc
    exact lt_of_lt_of_le (h.chunkIdLt c hc) hn
  · intro c hc
    exact lt_of_lt_of_le (h.chunkDocLt c hc) hn
  · intro d1 hd1
    rcases List.mem_append.1 hd1 with hmem | hmem
    · exact lt_of_lt_of_le (h.docIdLt d1 hmem) hn
    · exact (hfresh d1 hmem).2
  · intro e he
    exact lt_of_lt_of_le (h.embedChunkLt e he) hn
  · exact h.chunkIdsNodup

/-- The enqueue operation preserves the invariant on every outcome. -/
theorem inv_enqState {s : St RV} (u sess : String) (files : List FileMeta)
    (now : Nat) (o : WriteOutcome) (h : Inv s) :
    Inv (enqState s u sess files now o) := by
  unfold enqState enqueueIngestionJob
  have hid : ∀ d1 ∈ s.docs, ∃ d ∈ s.docs, d1.id = d.id :=
    fun d1 hd1 => ⟨d1, hd1, rfl⟩
  cases o with
  | failJob => exact h
  | failDocs =>
    dsimp only
    by_cases hlen : files.length > 0
    · rw [if_pos hlen]
      exact @inv_congr RV s _ rfl rfl (Nat.le_succ _) hid h
    · rw [if_neg hlen]
      exact @inv_congr RV s _ rfl rfl (Nat.le_succ _) hid h
  | ok =>
    dsimp only
    by_cases hlen : files.length > 0
    · rw [if_pos hlen]
      refine inv_append_docs _ _ _ ?_ (by omega) h
      intro d hd
      obtain ⟨p, hp, hpd⟩ := List.mem_map.1 hd
      have hplt : p.1 < files.length := enum_fst_lt files p hp
      rw [← hpd]
      dsimp only
      omega
    · rw [if_neg hlen]
      exact @inv_congr RV s _ rfl rfl (Nat.le_succ _) hid h

/-- Inserting one embedding row appends the model to exactly the rows of the
embedded chunk. -/
theorem embedModels_insert {V : Type} (s : St V) (cid0 : Nat)
    (er : EmbeddingResult V) (now cid : Nat) :
    embedModelsOfChunk (insertChunkEmbedding s cid0 er now) cid =
      embedModelsOfChunk s cid ++ (if cid0 = cid then [er.model] else []) := by
  unfold embedModelsOfChunk insertChunkEmbedding
  dsimp only
  rw [List.filter_append, List.map_append]
  congr 1
  by_cases hc : cid0 = cid <;> simp [hc]

/-- The deterministic embedding loop never throws; it leaves jobs, documents
and chunks untouched, only appends embedding rows for the listed chunk ids,
leaves other chunks' embedding rows unchanged, and appends exactly one
deterministic-model row per listed chunk (chunk ids assumed distinct). -/
theorem embedLoop_det (now : Nat) (cs : List Chunk) :
    ∀ s : St RV, (cs.map (fun c => c.id)).Nodup →
      ∃ s1, embedInsertedChunks detEF s now cs = .ok s1 ∧
        s1.jobs = s.jobs ∧ s1.docs = s.docs ∧ s1.chunks = s.chunks ∧
        s.nextId ≤ s1.nextId ∧
        (∀ e ∈ s1.embeds, e ∈ s.embeds ∨ e.chunk_id ∈ cs.map (fun c => c.id)) ∧
        (∀ cid, cid ∉ cs.map (fun c => c.id) →
          embedModelsOfChunk s1 cid = embedModelsOfChunk s cid) ∧
        (∀ c ∈ cs, embedModelsOfChunk s1 c.id =
          embedModelsOfChunk s c.id ++ ["deterministic-emb-v1"]) := by
  induction cs with
  | nil =>
    intro s _
    exact ⟨s, rfl, rfl, rfl, rfl, le_rfl, fun e he => Or.inl he,
      fun _ _ => rfl, by simp⟩
  | cons c rest ih =>
    intro s hnd
    have hndr : (rest.map (fun x => x.id)).Nodup := (List.nodup_cons.1 hnd).2
    have hcnot : c.id ∉ rest.map (fun x => x.id) := (List.nodup_cons.1 hnd).1
    obtain ⟨s1, heq, hjobs, hdocs, hchunks, hnid, hprov, hunch, hmem⟩ :=
      ih (insertChunkEmbedding s c.id (detEmbed c.text) now) hndr
    refine ⟨s1, heq, hjobs, hdocs, hchunks, le_trans (Nat.le_succ _) hnid,
      ?_, ?_, ?_⟩
    · intro e he
      rcases hprov e he with hin | hin
      · rcases List.mem_append.1 hin with h1 | h1
        · exact Or.inl h1
        · right
          have he1 : e.chunk_id = c.id := by
            rw [List.mem_singleton.1 h1]
          simp [he1]
      · exact Or.inr (by simp [hin])
    · intro cid hcid
      have hsplit : ¬ (cid = c.id) ∧ cid ∉ rest.map (fun x => x.id) := by
        constructor
        · intro hx
          exact hcid (by simp [hx])
        · intro hx
          exact hcid (by simp [hx])
      rw [hunch cid hsplit.2, embedModels_insert]
      rw [if_neg (fun hx => hsplit.1 hx.symm)]
      simp
    · intro x hx
      rcases List.mem_cons.1 hx with hxc | hx1
      · rw [hxc]
        rw [hunch c.id hcnot, embedModels_insert, if_pos rfl]
        rfl
      · rw [hmem x hx1, embedModels_insert]
        have hne : ¬ (c.id = x.id) :=
          fun hxx => hcnot (hxx ▸ List.mem_map_of_mem (fun y => y.id) hx1)
        rw [if_neg hne]
        simp

/-- A chunk id at or above the fresh-id counter owns no embedding rows. -/
theorem embedModels_fresh {V : Type} (s : St V) (cid : Nat)
    (h : ∀ e ∈ s.embeds, e.chunk_id < s.nextId) (hcid : s.nextId ≤ cid) :
    embedModelsOfChunk s cid = [] := by
  unfold embedModelsOfChunk
  have : s.embeds.filter (fun e => e.chunk_id = cid) = [] := by
    rw [List.filter_eq_nil_iff]
    intro e he
    simp only [decide_eq_true_eq]
    intro heq
    exact absurd (heq ▸ h e he) (not_lt.2 hcid)
  rw [this]
  rfl

/-- Index helper: mapping an index projection over rows built from an
enumeration recovers the range of positions. -/
theorem enum_build_indices {α β : Type} (l : List α) (g : Nat × α → β)
    (idx : β → Nat) (h : ∀ p, idx (g p) = p.1) :
    (l.enum.map g).map idx = List.range (l.enum.map g).length := by
  have hcomp : (idx ∘ g) = Prod.fst := funext h
  rw [List.map_map, hcomp, List.enum_map_fst, List.length_map, List.enum_length]

/-- The CSV branch assigns dense indices from zero. -/
theorem csvChunks_indices (content : String) :
    (csvChunks content).map (fun ch => ch.chunkIndex) =
      List.range (csvChunks content).length := by
  unfold csvChunks
  exact enum_build_indices _ _ _ (fun _ => rfl)

/-- The markdown branch assigns dense indices from zero. -/
theorem mdChunks_indices (content : String) :
    (mdChunks content).map (fun ch => ch.chunkIndex) =
      List.range (mdChunks content).length := by
  unfold mdChunks
  exact enum_build_indices _ _ _ (fun _ => rfl)

/-- Every structured result of the deterministic structurer carries dense
chunk indices from zero. -/
theorem detStructure_structured_indices (fs : FileSystem) (path : List String)
    (mime : String) (res : StructuredDocumentResult)
    (hok : detStructure fs path mime = .ok res) (hst : res.status = .structured) :
    res.chunks.map (fun ch => ch.chunkIndex) = List.range res.chunks.length := by
  unfold detStructure at hok
  by_cases h1 : hasSuffixLower path ".csv"
  · rw [if_pos h1] at hok
    cases hfs : fs path with
    | none =>
      rw [hfs] at hok
      exact absurd hok (by simp)
    | some content =>
      rw [hfs] at hok
      have hres : res =
          { status := .structured, chunks := csvChunks content, error := none } := by
        simpa using hok.symm
      rw [hres]
      exact csvChunks_indices content
  · rw [if_neg h1] at hok
    by_cases h2 : (hasSuffixLower path ".md" || hasSuffixLower path ".markdown") = true
    · rw [if_pos h2] at hok
      cases hfs : fs path with
      | none =>
        rw [hfs] at hok
        exact absurd hok (by simp)
      | some content =>
        rw [hfs] at hok
        have hres : res =
            { status := .structured, chunks := mdChunks content, error := none } := by
          simpa using hok.symm
        rw [hres]
        exact mdChunks_indices content
    · rw [if_neg h2] at hok
      have hres : res.status = .unsupported := by
        have hr : res =
            { status := .unsupported, chunks := []
              error := some "File format is not yet supported by the local structurer adapter" } := by
          simpa using hok.symm
        rw [hr]
      rw [hres] at hst
      exact absurd hst (by simp)

/-- Ids of a freshly built row batch. -/
theorem chunkRows_ids {V : Type} (s : St V) (did : Nat)
    (batch : List StructuredChunk) (now : Nat) :
    (chunkRows s did batch now).map (fun c => c.id) =
      (List.range batch.length).map (fun i => s.nextId + i) := by
  unfold chunkRows
  rw [List.map_map]
  rw [show ((fun c : Chunk => c.id) ∘ (fun p : Nat × StructuredChunk =>
      ({ id := s.nextId + p.1, document_id := did, chunk_index := p.2.chunkIndex,
         text := p.2.text, metadata := p.2.metadata, created_at := now } : Chunk))) =
      ((fun i => s.nextId + i) ∘ Prod.fst) from rfl]
  rw [← List.map_map, List.enum_map_fst]

/-- Chunk indices of a freshly built row batch are the supplied ones. -/
theorem chunkRows_index_list {V : Type} (s : St V) (did : Nat)
    (batch : List StructuredChunk) (now : Nat) :
    (chunkRows s did batch now).map (fun c => c.chunk_index) =
      batch.map (fun ch => ch.chunkIndex) := by
  unfold chunkRows
  rw [List.map_map]
  rw [show ((fun c : Chunk => c.chunk_index) ∘ (fun p : Nat × StructuredChunk =>
      ({ id := s.nextId + p.1, document_id := did, chunk_index := p.2.chunkIndex,
         text := p.2.text, metadata := p.2.metadata, created_at := now } : Chunk))) =
      ((fun ch : StructuredChunk => ch.chunkIndex) ∘ Prod.snd) from rfl]
  rw [← List.map_map, List.enum_map_snd]

/-- Fields of a freshly built row batch. -/
theorem chunkRows_mem {V : Type} (s : St V) (did : Nat)
    (batch : List StructuredChunk) (now : Nat) :
    ∀ r ∈ chunkRows s did batch now,
      r.document_id = did ∧ s.nextId ≤ r.id ∧ r.id < s.nextId + batch.length := by
  intro r hr
  obtain ⟨p, hp, hpr⟩ := List.mem_map.1 hr
  have hplt : p.1 < batch.length := enum_fst_lt batch p hp
  rw [← hpr]
  refine ⟨rfl, ?_, ?_⟩ <;> dsimp only <;> omega

/-- Ids of a freshly built row batch are distinct. -/
theorem chunkRows_nodup {V : Type} (s : St V) (did : Nat)
    (batch : List StructuredChunk) (now : Nat) :
    ((chunkRows s did batch now).map (fun c => c.id)).Nodup := by
  rw [chunkRows_ids]
  exact (List.nodup_range _).map (fun a b hab => by omega)

/-- Inserting a dense-indexed batch for an existing document, moving the job to
the embedding phase and embedding every inserted chunk restores the invariant;
documents are untouched and the id counter only grows. -/
theorem inv_structured_step {s : St RV} (did jobId now : Nat)
    (batch : List StructuredChunk)
    (hidx : batch.map (fun ch => ch.chunkIndex) = List.range batch.length)
    (hdid : did < s.nextId) (h : Inv s) :
    ∃ s4, embedInsertedChunks detEF
        (setJobStatus (insertDocumentChunks s did batch now).1 jobId
          .processing_embeddings none now) now
        (insertDocumentChunks s did batch now).2 = .ok s4 ∧
      Inv s4 ∧ s.nextId ≤ s4.nextId ∧ s4.docs = s.docs := by
  rw [insertDocumentChunks_eq]
  obtain ⟨s4, heq, hjobs, hdocs, hchunks, hnid, hprov, hunch, hmem⟩ :=
    embedLoop_det now (chunkRows s did batch now)
      (setJobStatus
        { s with chunks := s.chunks ++ chunkRows s did batch now,
                 nextId := s.nextId + batch.length } jobId
        .processing_embeddings none now)
      (chunkRows_nodup s did batch now)
  have hrowsfacts := chunkRows_mem s did batch now
  have hch3 : (setJobStatus
      { s with chunks := s.chunks ++ chunkRows s did batch now,
               nextId := s.nextId + batch.length } jobId
      .processing_embeddings none now).chunks =
      s.chunks ++ chunkRows s did batch now := rfl
  have hch4 : s4.chunks = s.chunks ++ chunkRows s did batch now := hchunks
  have hnid4 : s.nextId + batch.length ≤ s4.nextId := hnid
  have hdocs4 : s4.docs = s.docs := hdocs
  have hmods3 : ∀ cid, embedModelsOfChunk
      (setJobStatus
        { s with chunks := s.chunks ++ chunkRows s did batch now,
                 nextId := s.nextId + batch.length } jobId
        .processing_embeddings none now) cid = embedModelsOfChunk s cid :=
    fun _ => rfl
  have hrowids : ∀ r ∈ chunkRows s did batch now, s.nextId ≤ r.id :=
    fun r hr => (hrowsfacts r hr).2.1
  have holdnot : ∀ c ∈ s.chunks,
      c.id ∉ (chunkRows s did batch now).map (fun x => x.id) := by
    intro c hc hmemid
    obtain ⟨r, hr, hrid⟩ := List.mem_map.1 hmemid
    have := hrowids r hr
    have := h.chunkIdLt c hc
    omega
  refine ⟨s4, heq, ?_, le_trans (Nat.le_add_right _ _) hnid4, hdocs4⟩
  constructor
  · -- every chunk has exactly one deterministic embedding row
    intro c hc
    rw [hch4] at hc
    rcases List.mem_append.1 hc with hold | hnew
    · rw [hunch c.id (holdnot c hold), hmods3]
      exact h.oneEmbed c hold
    · rw [hmem c hnew, hmods3]
      rw [embedModels_fresh s c.id h.embedChunkLt (hrowids c hnew)]
      rfl
  · -- dense indices per document
    intro d1 hd1
    rw [hdocs4] at hd1
    have hlist : chunkIndexList s4 d1.id =
        chunkIndexList s d1.id ++
          ((chunkRows s did batch now).filter
            (fun c => c.document_id = d1.id)).map (fun c => c.chunk_index) := by
      unfold chunkIndexList chunksOfDoc
      rw [hch4, List.filter_append, List.map_append]
    by_cases hcase : d1.id = did
    · have hfilter : (chunkRows s did batch now).filter
          (fun c => c.document_id = d1.id) = chunkRows s did batch now := by
        rw [List.filter_eq_self]
        intro r hr
        simp only [decide_eq_true_eq]
        rw [(hrowsfacts r hr).1, hcase]
      obtain ⟨k, hk⟩ := h.denseIdx d1 hd1
      refine ⟨max k batch.length, ?_⟩
      intro i
      rw [hlist, hfilter, chunkRows_index_list, hidx]
      rw [List.mem_append, hk i, List.mem_range]
      omega
    · have hfilter : (chunkRows s did batch now).filter
          (fun c => c.document_id = d1.id) = [] := by
        rw [List.filter_eq_nil_iff]
        intro r hr
        simp only [decide_eq_true_eq]
        rw [(hrowsfacts r hr).1]
        exact fun hx => hcase hx.symm
      obtain ⟨k, hk⟩ := h.denseIdx d1 hd1
      refine ⟨k, ?_⟩
      intro i
      rw [hlist, hfilter]
      simpa using hk i
  · -- chunk ids below the counter
    intro c hc
    rw [hch4] at hc
    rcases List.mem_append.1 hc with hold | hnew
    · have := h.chunkIdLt c hold
      omega
    · have := (hrowsfacts c hnew).2.2
      omega
  · -- chunk document ids below the counter
    intro c hc
    rw [hch4] at hc
    rcases List.mem_append.1 hc with hold | hnew
    · have := h.chunkDocLt c hold
      omega
    · rw [(hrowsfacts c hnew).1]
      omega
  · -- document ids below the counter
    intro d1 hd1
    rw [hdocs4] at hd1
    have := h.docIdLt d1 hd1
    omega
  · -- embedding rows reference ids below the counter
    intro e he
    rcases hprov e he with hin | hin
    · have := h.embedChunkLt e hin
      omega
    · obtain ⟨r, hr, hrid⟩ := List.mem_map.1 hin
      have := (hrowsfacts r hr).2.2
      omega
  · -- chunk ids stay distinct
    rw [hch4, List.map_append]
    rw [List.nodup_append]
    refine ⟨h.chunkIdsNodup, chunkRows_nodup s did batch now, ?_⟩
    intro x hx hy
    obtain ⟨c, hc, hcx⟩ := List.mem_map.1 hx
    obtain ⟨r, hr, hrx⟩ := List.mem_map.1 hy
    have h1 := h.chunkIdLt c hc
    have h2 := hrowids r hr
    omega

/-- The per-document loop of the deterministic pipeline preserves the
invariant, on the success state and on the state carried by a throw alike, and
only grows the id counter. -/
theorem inv_processDocs (fs : FileSystem) (jobId now : Nat) :
    ∀ (docs : List Doc) (s : St RV), Inv s → (∀ d ∈ docs, d.id < s.nextId) →
      Inv (stateOfExcept (processDocs (detSF fs) detEF s jobId now docs)) ∧
      s.nextId ≤ (stateOfExcept (processDocs (detSF fs) detEF s jobId now docs)).nextId := by
  intro docs
  induction docs with
  | nil =>
    intro s h _
    exact ⟨h, le_rfl⟩
  | cons d rest ih =>
    intro s h hd
    have hinv1 : Inv (markDocumentStructuredStatus s d.id .processing none now) :=
      inv_mark d.id .processing none now h
    have hn1 : (markDocumentStructuredStatus s d.id .processing none now).nextId =
        s.nextId := rfl
    conv => rw [processDocs]
    cases hres : resolveStoredPathToAbsolutePath d.stored_path with
    | error m =>
      exact ⟨hinv1, le_rfl⟩
    | ok absolutePath =>
      dsimp only
      cases hsf : detSF fs absolutePath d.mime_type with
      | error m =>
        exact ⟨hinv1, le_rfl⟩
      | ok res =>
        dsimp only
        cases hst : res.status with
        | unsupported =>
          have := ih (markDocumentStructuredStatus
              (markDocumentStructuredStatus s d.id .processing none now)
              d.id .unsupported res.error now)
            (inv_mark d.id .unsupported res.error now hinv1)
            (fun d1 hd1 => hd d1 (List.mem_cons_of_mem d hd1))
          exact this
        | failed =>
          have := ih (markDocumentStructuredStatus
              (markDocumentStructuredStatus s d.id .processing none now)
              d.id .failed (some (res.error.getD "Structure step failed")) now)
            (inv_mark d.id .failed (some (res.error.getD "Structure step failed")) now hinv1)
            (fun d1 hd1 => hd d1 (List.mem_cons_of_mem d hd1))
          exact this
        | structured =>
          have hidx : res.chunks.map (fun ch => ch.chunkIndex) =
              List.range res.chunks.length :=
            detStructure_structured_indices fs absolutePath d.mime_type res hsf hst
          have hdid : d.id <
              (markDocumentStructuredStatus s d.id .processing none now).nextId := by
            rw [hn1]
            exact hd d (List.mem_cons_self d rest)
          obtain ⟨s4, heq4, hinv4, hle4, hdocs4⟩ :=
            inv_structured_step d.id jobId now res.chunks hidx hdid hinv1
          rw [heq4]
          have hrest := ih (markDocumentStructuredStatus s4 d.id .structured none now)
            (inv_mark d.id .structured none now hinv4)
            (fun d1 hd1 => by
              have := hd d1 (List.mem_cons_of_mem d hd1)
              have hle : s.nextId ≤ s4.nextId := by
                rw [← hn1]
                exact hle4
              show d1.id < s4.nextId
              omega)
          refine ⟨hrest.1, le_trans ?_ hrest.2⟩
          show s.nextId ≤ s4.nextId
          rw [← hn1]
          exact hle4

/-- The retry operation leaves chunk rows untouched. -/
theorem setJobFailedWithRetry_chunks {V : Type} (s : St V) (jobId : Nat)
    (m : String) (now : Nat) :
    (setJobFailedWithRetry s jobId m now).chunks = s.chunks := by
  unfold setJobFailedWithRetry
  cases s.jobs.find? (fun jb => jb.id = jobId) with
  | none => rfl
  | some job => by_cases hlt : job.attempt_count < job.max_attempts <;> simp [hlt]

/-- The whole processor preserves the invariant. -/
theorem inv_process (fs : FileSystem) (jobId now : Nat) {s : St RV} (h : Inv s) :
    Inv (processIngestionJob (detStructurerCfg fs) detEmbedderCfg s jobId now) := by
  unfold processIngestionJob processBody detStructurerCfg detEmbedderCfg
  dsimp only
  have hd : ∀ d ∈ getDocumentsForJob s jobId, d.id < s.nextId := by
    intro d hdm
    exact h.docIdLt d (List.mem_of_mem_filter hdm)
  have hmain := inv_processDocs fs jobId now (getDocumentsForJob s jobId) s h hd
  cases hp : processDocs (detSF fs) detEF s jobId now (getDocumentsForJob s jobId) with
  | ok s1 =>
    rw [hp] at hmain
    exact inv_setJobStatus jobId .completed none now hmain.1
  | error e =>
    obtain ⟨s1, m⟩ := e
    rw [hp] at hmain
    exact inv_failWithRetry jobId m now hmain.1

/-- Every reachable pipeline state satisfies the invariant. -/
theorem reach_inv : ∀ {s : St RV}, Reach s → Inv s := by
  intro s h
  induction h with
  | init => exact inv_emptySt
  | enq userId uploadSessionId uploadedFiles now o _ ih =>
    exact inv_enqState userId uploadSessionId uploadedFiles now o ih
  | claim now tUpd _ ih => exact inv_claimNext now tUpd ih
  | proc fs jobId now _ ih => exact inv_process fs jobId now ih

/-- The deterministic embedding loop never removes chunk rows and never
throws. -/
theorem embedLoop_chunks (now : Nat) (cs : List Chunk) :
    ∀ s : St RV, ∃ s1, embedInsertedChunks detEF s now cs = .ok s1 ∧
      s1.chunks = s.chunks := by
  induction cs with
  | nil => exact fun s => ⟨s, rfl, rfl⟩
  | cons c rest ih =>
    intro s
    obtain ⟨s1, heq, hch⟩ := ih (insertChunkEmbedding s c.id (detEmbed c.text) now)
    exact ⟨s1, heq, hch⟩

/-- The per-document loop only appends chunk rows. -/
theorem processDocs_chunks_mono (fs : FileSystem) (jobId now : Nat) :
    ∀ (docs : List Doc) (s : St RV),
      ∃ t, (stateOfExcept (processDocs (detSF fs) detEF s jobId now docs)).chunks =
        s.chunks ++ t := by
  intro docs
  induction docs with
  | nil =>
    intro s
    exact ⟨[], (List.append_nil _).symm⟩
  | cons d rest ih =>
    intro s
    conv => rw [processDocs]
    cases hres : resolveStoredPathToAbsolutePath d.stored_path with
    | error m => exact ⟨[], (List.append_nil _).symm⟩
    | ok absolutePath =>
      dsimp only
      cases hsf : detSF fs absolutePath d.mime_type with
      | error m => exact ⟨[], (List.append_nil _).symm⟩
      | ok res =>
        dsimp only
        cases hst : res.status with
        | unsupported => exact ih _
        | failed => exact ih _
        | structured =>
          rw [insertDocumentChunks_eq]
          obtain ⟨s4, heq4, hch4⟩ := embedLoop_chunks now
            (chunkRows (markDocumentStructuredStatus s d.id .processing none now)
              d.id res.chunks now)
            (setJobStatus
              { markDocumentStructuredStatus s d.id .processing none now with
                  chunks := (markDocumentStructuredStatus s d.id .processing none now).chunks ++
                    chunkRows (markDocumentStructuredStatus s d.id .processing none now)
                      d.id res.chunks now,
                  nextId := (markDocumentStructuredStatus s d.id .processing none now).nextId +
                    res.chunks.length } jobId .processing_embeddings none now)
          rw [heq4]
          obtain ⟨t, ht⟩ := ih (markDocumentStructuredStatus s4 d.id .structured none now)
          refine ⟨chunkRows (markDocumentStructuredStatus s d.id .processing none now)
            d.id res.chunks now ++ t, ?_⟩
          rw [ht]
          show s4.chunks ++ t = s.chunks ++
            (chunkRows (markDocumentStructuredStatus s d.id .processing none now)
              d.id res.chunks now ++ t)
          rw [hch4]
          show (s.chunks ++
            chunkRows (markDocumentStructuredStatus s d.id .processing none now)
              d.id res.chunks now) ++ t = _
          rw [List.append_assoc]

/-- The whole processor only appends chunk rows. -/
theorem process_chunks_mono (fs : FileSystem) (jobId now : Nat) (s : St RV) :
    ∃ t, (processIngestionJob (detStructurerCfg fs) detEmbedderCfg s jobId now).chunks =
      s.chunks ++ t := by
  unfold processIngestionJob processBody detStructurerCfg detEmbedderCfg
  dsimp only
  obtain ⟨t, ht⟩ := processDocs_chunks_mono fs jobId now (getDocumentsForJob s jobId) s
  cases hp : processDocs (detSF fs) detEF s jobId now (getDocumentsForJob s jobId) with
  | ok s1 =>
    rw [hp] at ht
    exact ⟨t, ht⟩
  | error e =>
    obtain ⟨s1, m⟩ := e
    rw [hp] at ht
    refine ⟨t, ?_⟩
    rw [setJobFailedWithRetry_chunks]
    exact ht

/-- C6 amended: in every reachable pipeline state, every document whose status
is structured has chunkIndex values forming an initial segment of the naturals
(possibly empty — the claim's `at least one chunk` fails), and each of its
chunks carries exactly one embedding row, for the deterministic embedding
model in effect. -/
theorem claim_C6_structured_invariant :
    ∀ s : St RV, Reach s → ∀ d ∈ s.docs, d.structured_status = .structured →
      (∃ k, ∀ i, i ∈ chunkIndexList s d.id ↔ i < k) ∧
      (∀ c ∈ chunksOfDoc s d.id,
        embedModelsOfChunk s c.id = ["deterministic-emb-v1"]) := by
  intro s hs d hd _hstatus
  have h := reach_inv hs
  exact ⟨h.denseIdx d hd, fun c hc => h.oneEmbed c (List.mem_of_mem_filter hc)⟩

/-- File system of the C6 counterexample: the stored csv file holds a single
blank line. -/
def fsBlank : FileSystem := fun p =>
  if p = serverRootDir ++ ["tmp", "uploads", "u", "sess", "sf.csv"] then some " "
  else none

/-- State after enqueueing one csv document. -/
def sC6a : St RV := enqState (emptySt RV) "u" "sess" [fCsv] 0 .ok

/-- State after the worker claims the job. -/
def sC6b : St RV := (claimNextQueuedJob sC6a sC6a 0 1).1

/-- State after processing the claimed job over the blank csv file. -/
noncomputable def sC6c : St RV :=
  processIngestionJob (detStructurerCfg fsBlank) detEmbedderCfg sC6b 0 2

/-- The document row of the C6 counterexample after processing. -/
def dC6 : Doc :=
  { id := 1, job_id := 0, user_id := "u", original_name := "f.csv"
    stored_name := "sf.csv", stored_path := ["tmp", "uploads", "u", "sess", "sf.csv"]
    mime_type := "text/csv", size_bytes := 12, structured_status := .structured
    error := none, created_at := 0, updated_at := 2 }

/-- Counterexample for C6: a reachable state (enqueue a csv document whose
content is a blank line, claim, process) holds a document with status
structured and zero chunks, refuting the claim's `at least one chunk` /
`k ≥ 1`. -/
theorem claim_C6_counterexample :
    Reach sC6c ∧ dC6 ∈ sC6c.docs ∧ dC6.structured_status = .structured ∧
    chunksOfDoc sC6c dC6.id = [] := by
  refine ⟨Reach.proc fsBlank 0 2
    (Reach.claim 0 1 (Reach.enq "u" "sess" [fCsv] 0 .ok Reach.init)), ?_, rfl, ?_⟩
  · decide
  · decide

/-- Witness for C6: the amended invariant instantiated at the reachable state
of the counterexample chain and its structured document. -/
theorem claim_C6_witness :
    (∃ k, ∀ i, i ∈ chunkIndexList sC6c dC6.id ↔ i < k) ∧
    (∀ c ∈ chunksOfDoc sC6c dC6.id,
      embedModelsOfChunk sC6c c.id = ["deterministic-emb-v1"]) :=
  claim_C6_structured_invariant sC6c
    (Reach.proc fsBlank 0 2
      (Reach.claim 0 1 (Reach.enq "u" "sess" [fCsv] 0 .ok Reach.init)))
    dC6 (by decide) rfl

/-- File system of the C7 scenario: the stored csv file holds three rows. -/
def fsFull : FileSystem := fun p =>
  if p = serverRootDir ++ ["tmp", "uploads", "u", "sess", "sf.csv"] then
    some "a,b\n1,2\n3,4"
  else none

/-- State after the first complete processing run of the three-row csv job. -/
noncomputable def sC7a : St RV :=
  processIngestionJob (detStructurerCfg fsFull) detEmbedderCfg sC6b 0 2

/-- State after manually resetting the completed job to queued and
reprocessing it. -/
noncomputable def sC7b : St RV :=
  processIngestionJob (detStructurerCfg fsFull) detEmbedderCfg
    (setJobStatus sC7a 0 .queued none 3) 0 4

/-- Counterexample for C7: the first run completes the job with three chunks
for the document; resetting to queued and reprocessing leaves six chunks — the
prior chunks are kept and a fresh batch is appended, so the chunk count is not
preserved. -/
theorem claim_C7_counterexample :
    sC7a.jobs.map (fun j => j.status) = [JobStatus.completed] ∧
    (chunksOfDoc sC7a 1).length = 3 ∧
    (chunksOfDoc sC7b 1).length = 6 ∧ (6 : Nat) ≠ 3 := by
  refine ⟨by decide, by decide, by decide, by decide⟩

/-- C7 amended: resetting a job of an invariant-satisfying state to queued and
reprocessing converges to the amended invariants — every chunk still has
exactly one embedding row and every document's chunk indices form an initial
segment — but prior chunks are retained and the new run appends a fresh batch,
so per-document chunk counts grow rather than stay equal. -/
theorem claim_C7_retry_reconverges (s : St RV) (jobId now now2 : Nat)
    (fs : FileSystem) (h : Inv s) :
    Inv (processIngestionJob (detStructurerCfg fs) detEmbedderCfg
      (setJobStatus s jobId .queued none now) jobId now2) ∧
    ∃ t, (processIngestionJob (detStructurerCfg fs) detEmbedderCfg
      (setJobStatus s jobId .queued none now) jobId now2).chunks = s.chunks ++ t := by
  constructor
  · exact inv_process fs jobId now2 (inv_setJobStatus jobId .queued none now h)
  · obtain ⟨t, ht⟩ := process_chunks_mono fs jobId now2
      (setJobStatus s jobId .queued none now)
    exact ⟨t, ht⟩

/-- Witness for C7: the amended statement instantiated on the completed
three-row csv run. -/
theorem claim_C7_witness :
    Inv sC7b ∧ ∃ t, sC7b.chunks = sC7a.chunks ++ t :=
  claim_C7_retry_reconverges sC7a 0 3 4 fsFull
    (reach_inv (Reach.proc fsFull 0 2
      (Reach.claim 0 1 (Reach.enq "u" "sess" [fCsv] 0 .ok Reach.init))))

end RagPulled
